import Mathlib

/-!
# RSS Guard: message reconciliation (`DatabaseQueries::updateMessages`)

Shallow embedding of `src/miscellaneous/databasequeries.cpp`.

* The `Messages` table is a list of rows in the scan order of the store; a
  `SELECT ... ; next()` yields the first row of that order that satisfies the
  `WHERE` clause.
* Every call into the database that may fail (`transaction`, `exec`, `commit`)
  takes its outcome from a `DbOracle`, so that theorems quantify over every
  pattern of failures.  A failed statement leaves the table as it was.
* Every call that starts or ends a transaction or executes a statement is
  appended to a log of `DbCall`s, which lets statements such as "no
  transaction is opened" or "an update is issued" be expressed.  Preparing a
  statement does not touch the table and is not logged.
* Qt library functions whose code is not part of the repository
  (`QUrl::toString`, `Enclosures::encodeEnclosuresToString`) are fields of
  `Library`.
* Primary keys are natural numbers in the range of `int`, so that
  `value(0).toInt()` is the identity on them.  Both out-pointers
  `any_message_changed` and `ok` are taken to be valid (non-`NULL`).
-/

namespace RssGuard

/-! ## Data model -/

/-- One attachment descriptor of a message. -/
structure Enclosure where
  m_url : String
  m_mimeType : String
deriving DecidableEq, Repr

/-- Candidate message handed to `updateMessages` (the fields of `Message` the
function reads).  `m_created` is `m_created.toMSecsSinceEpoch()`. -/
structure Message where
  m_title : String
  m_url : String
  m_author : String
  m_contents : String
  m_created : Int
  m_createdFromFeed : Bool
  m_isRead : Bool
  m_isImportant : Bool
  m_enclosures : List Enclosure
  m_customId : String
  m_customHash : String
deriving DecidableEq, Repr

/-- One row of table `Messages`, with the columns the queries name.  Flag
columns are SQL integers; `custom_id` may be `NULL`. -/
structure MessageRow where
  id : Nat
  is_read : Int
  is_deleted : Int
  is_important : Int
  is_pdeleted : Int
  feed : Int
  title : String
  url : String
  author : String
  date_created : Int
  contents : String
  enclosures : String
  custom_id : Option String
  custom_hash : String
  account_id : Int
deriving DecidableEq, Repr

/-- Library functions used by `updateMessages` whose code lives outside the
repository: `Enclosures::encodeEnclosuresToString` and
`QUrl(url).toString(RemoveUserInfo | RemovePath | RemoveQuery | RemoveFilename | StripTrailingSlash)`. -/
structure Library where
  encodeEnclosuresToString : List Enclosure → String
  urlToString : String → String

/-- Outcome of every fallible database call of one run of `updateMessages`;
`true` means the call succeeds.  The per-message statements are indexed by the
position of the message in the batch. -/
structure DbOracle where
  transaction_ok : Bool
  select_ok : Nat → Bool
  update_ok : Nat → Bool
  insert_ok : Nat → Bool
  fixup_ok : Bool
  commit_ok : Bool

/-- Calls issued to the database, in order, with their outcome.  The
per-message calls carry the position of the message in the batch and, for
writes, the (URL-normalised) message that was bound. -/
inductive DbCall where
  | transaction (ok : Bool)
  | rollback
  | commit (ok : Bool)
  | fixup (ok : Bool)
  | select_with_url (i : Nat) (ok : Bool)
  | select_with_id (i : Nat) (ok : Bool)
  | update (i : Nat) (message : Message) (id : Nat) (ok : Bool)
  | insert (i : Nat) (message : Message) (ok : Bool)
deriving DecidableEq, Repr

/-- Is the call an execution of `query_update`? -/
def DbCall.isUpdate : DbCall → Bool
  | .update _ _ _ _ => true
  | _ => false

/-- Is the call an execution of `query_insert`? -/
def DbCall.isInsert : DbCall → Bool
  | .insert _ _ _ => true
  | _ => false

/-- Is the call the fixup statement? -/
def DbCall.isFixup : DbCall → Bool
  | .fixup _ => true
  | _ => false

/-- An insert that executed (and so affected exactly one row). -/
def DbCall.insertSucceeded : DbCall → Bool
  | .insert _ _ ok => ok
  | _ => false

/-- An update that executed, bound to a message whose `m_isRead` is false. -/
def DbCall.updateSucceededUnread : DbCall → Bool
  | .update _ message _ ok => ok && !message.m_isRead
  | _ => false

/-- An update that executed. -/
def DbCall.updateSucceeded : DbCall → Bool
  | .update _ _ _ ok => ok
  | _ => false

/-- Position in the batch of the message a per-message call was issued for. -/
def DbCall.position : DbCall → Option Nat
  | .select_with_url i _ => some i
  | .select_with_id i _ => some i
  | .update i _ _ _ => some i
  | .insert i _ _ => some i
  | _ => none

/-- Does the log hold a call for the message at position `i` that satisfies `f`? -/
def hitAt (f : DbCall → Bool) (calls : List DbCall) (i : Nat) : Bool :=
  calls.any (fun c => c.position == some i && f c)

/-- Did the insert of the message at position `i` execute? -/
def insertedAt (calls : List DbCall) (i : Nat) : Bool := hitAt DbCall.insertSucceeded calls i

/-- Did an update for the message at position `i` execute? -/
def updatedAt (calls : List DbCall) (i : Nat) : Bool := hitAt DbCall.updateSucceeded calls i

/-- Is the candidate at position `i` of the batch unread (`m_isRead` false)? -/
def unreadAt (messages : List Message) (i : Nat) : Bool :=
  messages[i]?.map Message.m_isRead == some false

/-! ## Value conversions -/

/-- The value of `QVariant::toBool` on an integer column. -/
def toBool (v : Int) : Bool := v != 0

/-- The C++ cast `(int) b` of a `bool`. -/
def boolToInt (b : Bool) : Int := if b then 1 else 0

/-- The test `QString::isEmpty`. -/
def isEmpty (s : String) : Bool := s.data.isEmpty

/-- The test `QString::startsWith`. -/
def startsWith (s p : String) : Bool := p.data.isPrefixOf s.data

/-- The function `QString::mid(n)`: the text from position `n` on. -/
def mid (s : String) (n : Nat) : String := ⟨s.data.drop n⟩

/-- Modelled from the spec: the constant `URI_SCHEME_HTTP` of
`definitions/definitions.h`, which is not among the sources; the spec resolves
`//example.com/a` to `http://example.com/a`. -/
def URI_SCHEME_HTTP : String := "http://"

/-! ## The prepared statements of `updateMessages` -/

/-- First row returned by `query_select_with_url`, if any. -/
def query_select_with_url (db : List MessageRow) (feed : Int) (title url author : String)
    (account_id : Int) : Option MessageRow :=
  db.find? (fun r => r.feed == feed && r.title == title && r.url == url && r.author == author
    && r.account_id == account_id)

/-- First row returned by `query_select_with_id`, if any. -/
def query_select_with_id (db : List MessageRow) (custom_id : String) (account_id : Int) :
    Option MessageRow :=
  db.find? (fun r => r.custom_id == some custom_id && r.account_id == account_id)

/-- Modelled from the spec: the primary key of an inserted row is assigned by
the store (the schema of `Messages` is not among the sources); the model takes
one more than the largest key in the table, which no stored row carries. -/
def nextId (db : List MessageRow) : Nat := (db.map MessageRow.id).foldr max 0 + 1

/-- Modelled from the spec: the default of the columns `is_deleted` and
`is_pdeleted` in the schema of `Messages`, which is not among the sources; a
message starts its lifecycle active, `(0, 0)`. -/
def defaultLifecycleFlag : Int := 0

/-- The row written by `query_insert`.  Columns the statement does not name
take the defaults of the schema: the key `nextId`, and `defaultLifecycleFlag`
for `is_deleted` and `is_pdeleted`. -/
def insertedRow (lib : Library) (db : List MessageRow) (feed_custom_id account_id : Int)
    (message : Message) : MessageRow where
  id := nextId db
  is_read := boolToInt message.m_isRead
  is_deleted := defaultLifecycleFlag
  is_important := boolToInt message.m_isImportant
  is_pdeleted := defaultLifecycleFlag
  feed := feed_custom_id
  title := message.m_title
  url := message.m_url
  author := message.m_author
  date_created := message.m_created
  contents := message.m_contents
  enclosures := lib.encodeEnclosuresToString message.m_enclosures
  custom_id := some message.m_customId
  custom_hash := message.m_customHash
  account_id := account_id

/-- Effect of a successful `query_insert`. -/
def query_insert (lib : Library) (db : List MessageRow) (feed_custom_id account_id : Int)
    (message : Message) : List MessageRow :=
  db ++ [insertedRow lib db feed_custom_id account_id message]

/-- The `SET` clause of `query_update` applied to one row. -/
def updatedRow (lib : Library) (message : Message) (r : MessageRow) : MessageRow :=
  { r with
    title := message.m_title
    is_read := boolToInt message.m_isRead
    is_important := boolToInt message.m_isImportant
    url := message.m_url
    author := message.m_author
    date_created := message.m_created
    contents := message.m_contents
    enclosures := lib.encodeEnclosuresToString message.m_enclosures }

/-- Effect of a successful `query_update` (`... WHERE id = :id`). -/
def query_update (lib : Library) (db : List MessageRow) (id : Nat) (message : Message) :
    List MessageRow :=
  db.map (fun r => if r.id = id then updatedRow lib message r else r)

/-- Does the row satisfy `custom_id IS NULL OR custom_id = ''`? -/
def lacksCustomId (r : MessageRow) : Bool :=
  match r.custom_id with
  | none => true
  | some c => isEmpty c

/-- Effect of the fixup statement
`UPDATE Messages SET custom_id = (SELECT id ...) WHERE custom_id IS NULL OR custom_id = ''`. -/
def fixupCustomIds (db : List MessageRow) : List MessageRow :=
  db.map (fun r => if lacksCustomId r then { r with custom_id := some (toString r.id) } else r)

/-! ## The body of the `foreach` loop -/

/-- Replacement of relative URLs at the head of the loop body. -/
def normalizeUrl (lib : Library) (url : String) (m_url : String) : String :=
  if startsWith m_url "//" then URI_SCHEME_HTTP ++ mid m_url 2
  else if startsWith m_url "/" then lib.urlToString url ++ m_url
  else m_url

/-- The message of the loop body after URL replacement. -/
def normalizeMessage (lib : Library) (url : String) (message : Message) : Message :=
  { message with m_url := normalizeUrl lib url message.m_url }

/-- Variables of `updateMessages` that change while the batch is processed,
with the log of calls and the position of the next message. -/
structure LoopState where
  db : List MessageRow
  updated_messages : Nat
  any_message_changed : Bool
  calls : List DbCall
  index : Nat
deriving DecidableEq, Repr

/-- The identity lookup of the loop body, on the URL-normalised message:
the row whose `id`, `date_created`, `is_read`, `is_important` are read into the
`*_existing_message` locals, or `none` when `id_existing_message` stays `-1`
(the statement failed or returned no row). -/
def findExisting (o : DbOracle) (feed_custom_id account_id : Int) (i : Nat)
    (db : List MessageRow) (message : Message) : Option MessageRow :=
  if isEmpty message.m_customId then
    if o.select_ok i then
      query_select_with_url db feed_custom_id message.m_title message.m_url message.m_author
        account_id
    else none
  else
    if o.select_ok i then query_select_with_id db message.m_customId account_id
    else none

/-- The call logged for the identity lookup. -/
def selectCall (o : DbOracle) (i : Nat) (message : Message) : DbCall :=
  if isEmpty message.m_customId then .select_with_url i (o.select_ok i)
  else .select_with_id i (o.select_ok i)

/-- The condition under which an existing message is updated. -/
def updateCondition (message : Message) (row : MessageRow) : Bool :=
  (!isEmpty message.m_customId &&
      (message.m_created != row.date_created || message.m_isRead != toBool row.is_read
        || message.m_isImportant != toBool row.is_important))
    || (message.m_createdFromFeed && message.m_created != row.date_created)

/-- One iteration of `foreach (Message message, messages)`.  Primary keys are
not negative, so the test `id_existing_message >= 0` holds exactly when the
lookup read a row. -/
def processMessage (lib : Library) (o : DbOracle) (feed_custom_id account_id : Int)
    (url : String) (s : LoopState) (original : Message) : LoopState :=
  let message := normalizeMessage lib url original
  let i := s.index
  match findExisting o feed_custom_id account_id i s.db message with
  | some row =>
    if updateCondition message row then
      { db := if o.update_ok i then query_update lib s.db row.id message else s.db
        updated_messages :=
          if o.update_ok i && !message.m_isRead then s.updated_messages + 1
          else s.updated_messages
        any_message_changed := true
        calls := s.calls ++ [selectCall o i message, .update i message row.id (o.update_ok i)]
        index := i + 1 }
    else
      { s with calls := s.calls ++ [selectCall o i message], index := i + 1 }
  | none =>
    { db := if o.insert_ok i then query_insert lib s.db feed_custom_id account_id message
            else s.db
      updated_messages :=
        if o.insert_ok i then s.updated_messages + 1 else s.updated_messages
      any_message_changed := s.any_message_changed
      calls := s.calls ++ [selectCall o i message, .insert i message (o.insert_ok i)]
      index := i + 1 }

/-- The calls issued between two states of the loop. -/
def callsSince (before after : LoopState) : List DbCall :=
  after.calls.drop before.calls.length

/-- The `WHERE` clause of the identity lookup made for a (normalised) message:
that of `query_select_with_url` when the custom ID is empty, that of
`query_select_with_id` otherwise. -/
def identityClause (feed_custom_id account_id : Int) (message : Message) (r : MessageRow) :
    Bool :=
  if isEmpty message.m_customId then
    r.feed == feed_custom_id && r.title == message.m_title && r.url == message.m_url
      && r.author == message.m_author && r.account_id == account_id
  else
    r.custom_id == some message.m_customId && r.account_id == account_id

/-- What the caller observes after `updateMessages`: the returned integer, the
two out-variables, the table, and the log of database calls. -/
structure Outcome where
  returned : Nat
  any_message_changed : Bool
  ok : Bool
  db : List MessageRow
  calls : List DbCall
deriving DecidableEq, Repr

/-- State of the loop right after `db.transaction()` succeeded. -/
def initialState (db : List MessageRow) (any_message_changed : Bool) : LoopState :=
  { db := db, updated_messages := 0, any_message_changed := any_message_changed,
    calls := [.transaction true], index := 0 }

/-- The function `DatabaseQueries::updateMessages`.  The arguments
`any_message_changed` and `ok` are the values the caller's variables hold
before the call. -/
def updateMessages (lib : Library) (o : DbOracle) (db : List MessageRow)
    (messages : List Message) (feed_custom_id account_id : Int) (url : String)
    (any_message_changed ok : Bool) : Outcome :=
  if messages.isEmpty then
    { returned := 0, any_message_changed := false, ok := true, db := db, calls := [] }
  else if !o.transaction_ok then
    { returned := 0, any_message_changed := any_message_changed, ok := ok, db := db,
      calls := [.transaction false, .rollback] }
  else
    let s := messages.foldl (processMessage lib o feed_custom_id account_id url)
      (initialState db any_message_changed)
    let fixed := if o.fixup_ok then fixupCustomIds s.db else s.db
    if !o.commit_ok then
      { returned := s.updated_messages, any_message_changed := s.any_message_changed,
        ok := false, db := db,
        calls := s.calls ++ [.fixup o.fixup_ok, .commit false, .rollback] }
    else
      { returned := s.updated_messages, any_message_changed := s.any_message_changed,
        ok := true, db := fixed,
        calls := s.calls ++ [.fixup o.fixup_ok, .commit true] }

/-! ## One-statement operations on `Messages`

Each of these functions of `DatabaseQueries` runs one `UPDATE` or `DELETE`
statement and returns the result of `exec`.  The argument `exec_ok` is the
outcome of `exec`; the functions return the table together with the boolean
the C++ function returns.  Lists of ids (`QStringList ids`, joined into
`IN (...)`) hold the decimal texts of numbers and are lists of numbers here. -/

/-- An `UPDATE Messages SET ... WHERE ...` run by `exec`: on success every row
that satisfies the `WHERE` clause is rewritten by the `SET` clause, on failure
the table is as it was. -/
def execUpdate (exec_ok : Bool) (db : List MessageRow) (whereClause : MessageRow → Bool)
    (setClause : MessageRow → MessageRow) : List MessageRow × Bool :=
  if exec_ok then (db.map (fun r => if whereClause r then setClause r else r), true)
  else (db, false)

/-- A `DELETE FROM Messages WHERE ...` run by `exec`: on success the rows that
satisfy the `WHERE` clause are gone, on failure the table is as it was. -/
def execDelete (exec_ok : Bool) (db : List MessageRow) (whereClause : MessageRow → Bool) :
    List MessageRow × Bool :=
  if exec_ok then (db.filter (fun r => !whereClause r), true) else (db, false)

/-- The enumeration `RootItem::ReadStatus`. -/
inductive ReadStatus where
  | Unread
  | Read
deriving DecidableEq, Repr

/-- The expression `read == RootItem::Read ? 1 : 0`. -/
def readValue (read : ReadStatus) : Int :=
  match read with
  | .Read => 1
  | .Unread => 0

/-- The SQL expression `NOT x` on an integer column. -/
def sqlNot (x : Int) : Int := if x = 0 then 1 else 0

/-- The function `DatabaseQueries::markMessagesReadUnread`. -/
def markMessagesReadUnread (exec_ok : Bool) (db : List MessageRow) (ids : List Nat)
    (read : ReadStatus) : List MessageRow × Bool :=
  execUpdate exec_ok db (fun r => ids.contains r.id)
    (fun r => { r with is_read := readValue read })

/-- The function `DatabaseQueries::markMessageImportant`; `importance` is the
value of `(int) importance`.  When `prepare` fails nothing is executed. -/
def markMessageImportant (prepare_ok exec_ok : Bool) (db : List MessageRow) (id : Nat)
    (importance : Int) : List MessageRow × Bool :=
  if !prepare_ok then (db, false)
  else execUpdate exec_ok db (fun r => r.id == id) (fun r => { r with is_important := importance })

/-- The function `DatabaseQueries::markFeedsReadUnread`. -/
def markFeedsReadUnread (exec_ok : Bool) (db : List MessageRow) (ids : List Int)
    (account_id : Int) (read : ReadStatus) : List MessageRow × Bool :=
  execUpdate exec_ok db
    (fun r => ids.contains r.feed && r.is_deleted == 0 && r.is_pdeleted == 0
      && r.account_id == account_id)
    (fun r => { r with is_read := readValue read })

/-- The function `DatabaseQueries::markBinReadUnread`. -/
def markBinReadUnread (exec_ok : Bool) (db : List MessageRow) (account_id : Int)
    (read : ReadStatus) : List MessageRow × Bool :=
  execUpdate exec_ok db
    (fun r => r.is_deleted == 1 && r.is_pdeleted == 0 && r.account_id == account_id)
    (fun r => { r with is_read := readValue read })

/-- The function `DatabaseQueries::markAccountReadUnread`. -/
def markAccountReadUnread (exec_ok : Bool) (db : List MessageRow) (account_id : Int)
    (read : ReadStatus) : List MessageRow × Bool :=
  execUpdate exec_ok db (fun r => r.is_pdeleted == 0 && r.account_id == account_id)
    (fun r => { r with is_read := readValue read })

/-- The function `DatabaseQueries::switchMessagesImportance`. -/
def switchMessagesImportance (exec_ok : Bool) (db : List MessageRow) (ids : List Nat) :
    List MessageRow × Bool :=
  execUpdate exec_ok db (fun r => ids.contains r.id)
    (fun r => { r with is_important := sqlNot r.is_important })

/-- The function `DatabaseQueries::permanentlyDeleteMessages`. -/
def permanentlyDeleteMessages (exec_ok : Bool) (db : List MessageRow) (ids : List Nat) :
    List MessageRow × Bool :=
  execUpdate exec_ok db (fun r => ids.contains r.id) (fun r => { r with is_pdeleted := 1 })

/-- The function `DatabaseQueries::deleteOrRestoreMessagesToFromBin`. -/
def deleteOrRestoreMessagesToFromBin (exec_ok : Bool) (db : List MessageRow) (ids : List Nat)
    (deleted : Bool) : List MessageRow × Bool :=
  execUpdate exec_ok db (fun r => ids.contains r.id)
    (fun r => { r with is_deleted := if deleted then 1 else 0 })

/-- The function `DatabaseQueries::restoreBin`. -/
def restoreBin (exec_ok : Bool) (db : List MessageRow) (account_id : Int) :
    List MessageRow × Bool :=
  execUpdate exec_ok db
    (fun r => r.is_deleted == 1 && r.is_pdeleted == 0 && r.account_id == account_id)
    (fun r => { r with is_deleted := 0 })

/-- The function `DatabaseQueries::purgeMessagesFromBin`. -/
def purgeMessagesFromBin (exec_ok : Bool) (db : List MessageRow) (clear_only_read : Bool)
    (account_id : Int) : List MessageRow × Bool :=
  if clear_only_read then
    execUpdate exec_ok db
      (fun r => r.is_read == 1 && r.is_deleted == 1 && r.account_id == account_id)
      (fun r => { r with is_pdeleted := 1 })
  else
    execUpdate exec_ok db (fun r => r.is_deleted == 1 && r.account_id == account_id)
      (fun r => { r with is_pdeleted := 1 })

/-- The function `DatabaseQueries::cleanFeeds`. -/
def cleanFeeds (exec_ok : Bool) (db : List MessageRow) (ids : List Int) (clean_read_only : Bool)
    (account_id : Int) : List MessageRow × Bool :=
  if clean_read_only then
    execUpdate exec_ok db
      (fun r => ids.contains r.feed && r.is_deleted == 0 && r.is_pdeleted == 0 && r.is_read == 1
        && r.account_id == account_id)
      (fun r => { r with is_deleted := 1 })
  else
    execUpdate exec_ok db
      (fun r => ids.contains r.feed && r.is_deleted == 0 && r.is_pdeleted == 0
        && r.account_id == account_id)
      (fun r => { r with is_deleted := 1 })

/-- The function `DatabaseQueries::purgeReadMessages`. -/
def purgeReadMessages (exec_ok : Bool) (db : List MessageRow) : List MessageRow × Bool :=
  execDelete exec_ok db (fun r => r.is_important == 0 && r.is_deleted == 0 && r.is_read == 1)

/-- The function `DatabaseQueries::purgeOldMessages`; `now` is
`QDateTime::currentDateTimeUtc().toMSecsSinceEpoch()`, and `addDays` on a UTC
time moves it by 86400000 ms per day. -/
def purgeOldMessages (exec_ok : Bool) (now : Int) (db : List MessageRow)
    (older_than_days : Int) : List MessageRow × Bool :=
  let since_epoch : Int := now + (-older_than_days) * 86400000
  execDelete exec_ok db (fun r => r.is_important == 0 && decide (r.date_created < since_epoch))

/-- The function `DatabaseQueries::purgeRecycleBin`. -/
def purgeRecycleBin (exec_ok : Bool) (db : List MessageRow) : List MessageRow × Bool :=
  execDelete exec_ok db (fun r => r.is_important == 0 && r.is_deleted == 1)

/-! ## Counters -/

/-- One row of table `Feeds`, with the columns the counters name. -/
structure FeedRow where
  custom_id : Int
  category : Int
  account_id : Int
deriving DecidableEq, Repr

/-- A `QMap<int, QPair<int, int>>`, given by its lookup; `none` for a key the
map does not hold. -/
structure QMap where
  find : Int → Option (Int × Int)

/-- The empty map. -/
def QMap.empty : QMap := ⟨fun _ => none⟩

/-- The method `QMap::insert`: the value of an existing key is replaced. -/
def QMap.insert (counts : QMap) (key : Int) (value : Int × Int) : QMap :=
  ⟨fun k => if k = key then some value else counts.find k⟩

/-- The SQLite operator `%` on integers: the remainder has the sign of the left
operand. -/
def sqlMod (a b : Int) : Int := Int.tmod a b

/-- The clause `is_deleted = 0 AND is_pdeleted = 0 AND account_id = :account_id`. -/
def isActiveIn (account_id : Int) (r : MessageRow) : Bool :=
  r.is_deleted == 0 && r.is_pdeleted == 0 && r.account_id == account_id

/-- The clause `feed IN (SELECT custom_id FROM Feeds WHERE category = :category
AND account_id = :account_id)`. -/
def feedInCategory (feeds : List FeedRow) (category account_id : Int) (feed : Int) : Bool :=
  ((feeds.filter (fun f => f.category == category && f.account_id == account_id)).map
    FeedRow.custom_id).contains feed

/-- Result of `SELECT feed, sum((is_read + 1) % 2), count(*) ... GROUP BY feed`
over the rows that passed the `WHERE` clause: one result row per feed. -/
def groupByFeed (rows : List MessageRow) : List (Int × Int × Int) :=
  (rows.map MessageRow.feed).dedup.map (fun f =>
    (f, ((rows.filter (fun r => r.feed == f)).map (fun r => sqlMod (r.is_read + 1) 2)).sum,
      ((rows.filter (fun r => r.feed == f)).length : Int)))

/-- The loop `while (q.next())` that fills the map of counts; without total
counts the second component is 0. -/
def fillCounts (including_total_counts : Bool) (rows : List (Int × Int × Int)) : QMap :=
  rows.foldl (fun counts row =>
    if including_total_counts then counts.insert row.1 (row.2.1, row.2.2)
    else counts.insert row.1 (row.2.1, 0)) QMap.empty

/-- The function `DatabaseQueries::getMessageCountsForCategory`: the map and
the value written to `*ok`. -/
def getMessageCountsForCategory (exec_ok : Bool) (db : List MessageRow) (feeds : List FeedRow)
    (custom_id account_id : Int) (including_total_counts : Bool) : QMap × Bool :=
  if exec_ok then
    (fillCounts including_total_counts (groupByFeed (db.filter (fun r =>
      feedInCategory feeds custom_id account_id r.feed && isActiveIn account_id r))), true)
  else (QMap.empty, false)

/-- The function `DatabaseQueries::getMessageCountsForAccount`: the map and the
value written to `*ok`. -/
def getMessageCountsForAccount (exec_ok : Bool) (db : List MessageRow) (account_id : Int)
    (including_total_counts : Bool) : QMap × Bool :=
  if exec_ok then
    (fillCounts including_total_counts (groupByFeed (db.filter (isActiveIn account_id))), true)
  else (QMap.empty, false)

/-- The function `DatabaseQueries::getMessageCountsForFeed`: the integer
returned and the value written to `*ok`.  A `SELECT count(*)` that executes
has one result row, so `next()` succeeds. -/
def getMessageCountsForFeed (exec_ok : Bool) (db : List MessageRow)
    (feed_custom_id account_id : Int) (including_total_counts : Bool) : Int × Bool :=
  if exec_ok then
    if including_total_counts then
      ((db.countP (fun r => r.feed == feed_custom_id && r.is_deleted == 0 && r.is_pdeleted == 0
        && r.account_id == account_id) : Nat), true)
    else
      ((db.countP (fun r => r.feed == feed_custom_id && r.is_deleted == 0 && r.is_pdeleted == 0
        && r.is_read == 0 && r.account_id == account_id) : Nat), true)
  else (0, false)

/-- The function `DatabaseQueries::getMessageCountsForBin`: the integer
returned and the value written to `*ok`. -/
def getMessageCountsForBin (exec_ok : Bool) (db : List MessageRow) (account_id : Int)
    (including_total_counts : Bool) : Int × Bool :=
  if exec_ok then
    if including_total_counts then
      ((db.countP (fun r => r.is_deleted == 1 && r.is_pdeleted == 0
        && r.account_id == account_id) : Nat), true)
    else
      ((db.countP (fun r => r.is_read == 0 && r.is_deleted == 1 && r.is_pdeleted == 0
        && r.account_id == account_id) : Nat), true)
  else (0, false)

/-! ## Relations between the table before and after an operation -/

/-- Position by position, every row of `before` has a successor in `after`
that is related to it by `P`; `after` may hold further rows at its end. -/
def RowsRelated (P : MessageRow → MessageRow → Prop) (before after : List MessageRow) : Prop :=
  ∀ (k : Nat) (r : MessageRow), before[k]? = some r →
    ∃ r2 : MessageRow, after[k]? = some r2 ∧ P r r2

/-- The successor has the key of the row and a purged row stays purged. -/
def KeepsPurged (r r2 : MessageRow) : Prop :=
  r2.id = r.id ∧ (r.is_pdeleted = 1 → r2.is_pdeleted = 1)

/-- The successor has the key of the row, a purged row stays purged, and a
row with `is_deleted = 1` keeps it. -/
def KeepsLifecycle (r r2 : MessageRow) : Prop :=
  r2.id = r.id ∧ (r.is_pdeleted = 1 → r2.is_pdeleted = 1) ∧ (r.is_deleted = 1 → r2.is_deleted = 1)

/-! ## Sample data used to evaluate the definitions -/

/-- A stand-in for the library functions, used only to evaluate examples. -/
def sampleLibrary : Library where
  encodeEnclosuresToString := fun es => String.join (es.map (fun e => e.m_mimeType ++ e.m_url))
  urlToString := fun u => u

/-- The oracle under which every database call succeeds. -/
def allSucceed : DbOracle where
  transaction_ok := true
  select_ok := fun _ => true
  update_ok := fun _ => true
  insert_ok := fun _ => true
  fixup_ok := true
  commit_ok := true

/-- The oracle under which `db.transaction()` fails. -/
def transactionFails : DbOracle := { allSucceed with transaction_ok := false }

/-- A stored message of feed 7 in account 1 with custom ID `42`, unread, not starred. -/
def storedRow42 : MessageRow where
  id := 1
  is_read := 0
  is_deleted := 0
  is_important := 0
  is_pdeleted := 0
  feed := 7
  title := "A"
  url := "http://s/a"
  author := "x"
  date_created := 100
  contents := "old"
  enclosures := ""
  custom_id := some "42"
  custom_hash := ""
  account_id := 1

/-- A candidate with custom ID `42`, read, same timestamp as `storedRow42`. -/
def candidate42 : Message where
  m_title := "A"
  m_url := "http://s/a"
  m_author := "x"
  m_contents := "new"
  m_created := 100
  m_createdFromFeed := false
  m_isRead := true
  m_isImportant := false
  m_enclosures := []
  m_customId := "42"
  m_customHash := ""

/-- A stored message of feed 7 in account 1 identified by feed, title, URL and
author; the user has read and starred it. -/
def storedRowA : MessageRow where
  id := 1
  is_read := 1
  is_deleted := 0
  is_important := 1
  is_pdeleted := 0
  feed := 7
  title := "A"
  url := "https://s/x"
  author := "x"
  date_created := 100
  contents := "old"
  enclosures := ""
  custom_id := some "1"
  custom_hash := ""
  account_id := 1

/-- A candidate without custom ID carrying the title, URL and author of
`storedRowA`, unread and not starred. -/
def candidateA (created : Int) (createdFromFeed : Bool) : Message where
  m_title := "A"
  m_url := "https://s/x"
  m_author := "x"
  m_contents := "new"
  m_created := created
  m_createdFromFeed := createdFromFeed
  m_isRead := false
  m_isImportant := false
  m_enclosures := []
  m_customId := ""
  m_customHash := ""

/-- A second stored message identified by feed, title, URL and author, with
primary key 2. -/
def storedRowB : MessageRow := { storedRowA with id := 2, custom_id := some "2" }

/-- A candidate with custom ID `77` that no stored message carries; it is read. -/
def candidateNew : Message where
  m_title := "N"
  m_url := "https://s/n"
  m_author := "y"
  m_contents := "text"
  m_created := 300
  m_createdFromFeed := true
  m_isRead := true
  m_isImportant := false
  m_enclosures := []
  m_customId := "77"
  m_customHash := "h"

/-- A batch of four: an update with isRead false, an update with isRead true,
an insert, and a candidate that is skipped. -/
def sampleBatch : List Message :=
  [candidateA 200 true, candidate42, candidateNew, candidateA 200 true]

/-- The oracle under which only `db.commit()` fails. -/
def commitFails : DbOracle := { allSucceed with commit_ok := false }

/-- The oracle under which only the identity lookups fail to execute. -/
def lookupFails : DbOracle := { allSucceed with select_ok := fun _ => false }

/-- A stored message of another feed whose `custom_id` is `NULL`. -/
def storedRowNull : MessageRow :=
  { storedRowA with id := 3, feed := 8, title := "Z", custom_id := none }

/-- A candidate with the title, URL and author of `storedRowA` that carries the
custom ID `77`, which no stored message has. -/
def candidateA77 : Message := { candidateA 100 true with m_customId := "77" }

/-- A candidate without custom ID whose URL has no scheme. -/
def candidateSlashes : Message := { candidateA 100 true with m_url := "//example.com/a" }

/-- A candidate without custom ID whose URL is relative to the feed's host: the
scenario of the specification. -/
def candidateRelative : Message := { candidateA 100 true with m_url := "/x" }

/-- A stand-in, used only to evaluate examples, for
`QUrl(url).toString(RemoveUserInfo | RemovePath | RemoveQuery | RemoveFilename | StripTrailingSlash)`
on URLs of the shape `scheme://[userinfo@]host[:port][/path][?query]`: the
scheme, `://` and the host with its port. -/
def sampleOrigin (u : String) : String :=
  let scheme := u.data.takeWhile (fun c => c != ':')
  let rest := (u.data.dropWhile (fun c => c != ':')).drop 3
  let authority := rest.takeWhile (fun c => c != '/' && c != '?' && c != '#')
  let host :=
    if authority.contains '@' then (authority.dropWhile (fun c => c != '@')).drop 1
    else authority
  ⟨scheme ++ "://".data ++ host⟩

/-- The sample library with `sampleOrigin` for `QUrl::toString`. -/
def originLibrary : Library := { sampleLibrary with urlToString := sampleOrigin }

/-- A candidate with custom ID `3`, the primary key of `storedRowNull`. -/
def candidate3 : Message := { candidateNew with m_customId := "3" }

/-- The table after `updateMessages` applied once with every call succeeding,
feed 7, account 1 and base URL `https://s/feed`. -/
def appliedOnce (db : List MessageRow) (messages : List Message) : List MessageRow :=
  (updateMessages sampleLibrary allSucceed db messages 7 1 "https://s/feed" false false).db

/-- A table of six messages: in feed 7 of account 1 an unread and a read active
message, in feed 8 of account 1 a read active message, in feed 7 of account 1
an unread message in the bin and a purged message, and in feed 7 of account 2
an unread active message. -/
def sampleTable : List MessageRow :=
  [storedRow42, storedRowB, storedRowNull,
   { storedRowA with id := 4, is_read := 0, is_deleted := 1 },
   { storedRowA with id := 5, is_deleted := 1, is_pdeleted := 1 },
   { storedRow42 with id := 6, account_id := 2 }]

/-- Feeds 7 and 8 of account 1, in categories 10 and 11, and feed 7 of
account 2 in category 10. -/
def sampleFeeds : List FeedRow :=
  [{ custom_id := 7, category := 10, account_id := 1 },
   { custom_id := 8, category := 11, account_id := 1 },
   { custom_id := 7, category := 10, account_id := 2 }]

/-- The message `storedRow42` with the custom ID `2`, the key the next
inserted row will get. -/
def storedRowCustom2 : MessageRow := { storedRow42 with custom_id := some "2" }

/-! ## Basic facts about the conversions and the loop body -/

theorem isEmpty_iff (s : String) : isEmpty s = true ↔ s = "" := by
  cases s with
  | mk d => cases d <;> simp [isEmpty, String.ext_iff]

theorem isEmpty_eq_false {s : String} (h : s ≠ "") : isEmpty s = false := by
  cases hs : isEmpty s
  · rfl
  · exact absurd ((isEmpty_iff s).1 hs) h

theorem normalizeMessage_customId (lib : Library) (url : String) (m : Message) :
    (normalizeMessage lib url m).m_customId = m.m_customId := rfl

theorem updateCondition_customId {m : Message} (row : MessageRow)
    (h : isEmpty m.m_customId = false) :
    updateCondition m row = true ↔
      (m.m_created ≠ row.date_created ∨ m.m_isRead ≠ toBool row.is_read ∨
        m.m_isImportant ≠ toBool row.is_important) := by
  simp only [updateCondition, h]
  cases m.m_createdFromFeed <;> simp <;> tauto

theorem updateCondition_url {m : Message} (row : MessageRow)
    (h : isEmpty m.m_customId = true) :
    updateCondition m row = true ↔
      (m.m_createdFromFeed = true ∧ m.m_created ≠ row.date_created) := by
  simp [updateCondition, h]

theorem callsSince_append (s t : LoopState) (l : List DbCall) (h : t.calls = s.calls ++ l) :
    callsSince s t = l := by
  simp [callsSince, h]

/-- The loop body when the lookup read a row and the update condition holds. -/
theorem processMessage_update (lib : Library) (o : DbOracle) (feed acc : Int) (url : String)
    (s : LoopState) (m : Message) (row : MessageRow)
    (hfind : findExisting o feed acc s.index s.db (normalizeMessage lib url m) = some row)
    (hcond : updateCondition (normalizeMessage lib url m) row = true) :
    processMessage lib o feed acc url s m =
      { db := if o.update_ok s.index then
                query_update lib s.db row.id (normalizeMessage lib url m) else s.db
        updated_messages :=
          if o.update_ok s.index && !m.m_isRead then s.updated_messages + 1
          else s.updated_messages
        any_message_changed := true
        calls := s.calls ++ [selectCall o s.index (normalizeMessage lib url m),
          .update s.index (normalizeMessage lib url m) row.id (o.update_ok s.index)]
        index := s.index + 1 } := by
  unfold processMessage
  simp only [hfind, hcond]
  rfl

/-- The loop body when the lookup read a row and the update condition fails. -/
theorem processMessage_skip (lib : Library) (o : DbOracle) (feed acc : Int) (url : String)
    (s : LoopState) (m : Message) (row : MessageRow)
    (hfind : findExisting o feed acc s.index s.db (normalizeMessage lib url m) = some row)
    (hcond : updateCondition (normalizeMessage lib url m) row = false) :
    processMessage lib o feed acc url s m =
      { s with calls := s.calls ++ [selectCall o s.index (normalizeMessage lib url m)],
               index := s.index + 1 } := by
  unfold processMessage
  simp only [hfind, hcond]
  rfl

/-- The loop body when the lookup read no row. -/
theorem processMessage_insert (lib : Library) (o : DbOracle) (feed acc : Int) (url : String)
    (s : LoopState) (m : Message)
    (hfind : findExisting o feed acc s.index s.db (normalizeMessage lib url m) = none) :
    processMessage lib o feed acc url s m =
      { db := if o.insert_ok s.index then
                query_insert lib s.db feed acc (normalizeMessage lib url m) else s.db
        updated_messages :=
          if o.insert_ok s.index then s.updated_messages + 1 else s.updated_messages
        any_message_changed := s.any_message_changed
        calls := s.calls ++ [selectCall o s.index (normalizeMessage lib url m),
          .insert s.index (normalizeMessage lib url m) (o.insert_ok s.index)]
        index := s.index + 1 } := by
  unfold processMessage
  simp only [hfind]

theorem selectCall_isUpdate (o : DbOracle) (i : Nat) (m : Message) :
    (selectCall o i m).isUpdate = false := by
  unfold selectCall; split <;> rfl

theorem selectCall_isInsert (o : DbOracle) (i : Nat) (m : Message) :
    (selectCall o i m).isInsert = false := by
  unfold selectCall; split <;> rfl

theorem findExisting_mem {o : DbOracle} {feed acc : Int} {i : Nat} {db : List MessageRow}
    {m : Message} {row : MessageRow} (h : findExisting o feed acc i db m = some row) :
    row ∈ db := by
  unfold findExisting at h
  split at h <;> split at h
  · exact List.mem_of_find?_eq_some h
  · cases h
  · exact List.mem_of_find?_eq_some h
  · cases h

theorem lt_nextId (db : List MessageRow) : ∀ r ∈ db, r.id < nextId db := by
  induction db with
  | nil => intro r hr; cases hr
  | cons a t ih =>
    intro r hr
    simp only [nextId, List.map_cons, List.foldr_cons] at ih ⊢
    rcases List.mem_cons.1 hr with rfl | hr
    · omega
    · have := ih r hr
      omega

theorem fixupCustomIds_flags (db : List MessageRow) :
    (fixupCustomIds db).map (fun r => (r.id, r.is_read, r.is_important)) =
      db.map (fun r => (r.id, r.is_read, r.is_important)) := by
  simp only [fixupCustomIds, List.map_map]
  apply List.map_congr_left
  intro r _
  simp only [Function.comp]
  split <;> rfl

/-- The table after `updateMessages` on a batch of one message, in terms of the
loop body. -/
theorem updateMessages_singleton_db (lib : Library) (o : DbOracle) (db : List MessageRow)
    (m : Message) (feed acc : Int) (url : String) (any ok : Bool) :
    (updateMessages lib o db [m] feed acc url any ok).db = db
    ∨ (updateMessages lib o db [m] feed acc url any ok).db =
        (processMessage lib o feed acc url (initialState db any) m).db
    ∨ (updateMessages lib o db [m] feed acc url any ok).db =
        fixupCustomIds (processMessage lib o feed acc url (initialState db any) m).db := by
  unfold updateMessages
  cases o.transaction_ok <;> cases o.commit_ok <;> cases o.fixup_ok <;> simp

/-- Every message of a batch is handled by `processMessage`, started in the
state the messages before it have left. -/
theorem loop_split (lib : Library) (o : DbOracle) (feed acc : Int) (url : String)
    (s : LoopState) (pre post : List Message) (m : Message) :
    (pre ++ m :: post).foldl (processMessage lib o feed acc url) s =
      post.foldl (processMessage lib o feed acc url)
        (processMessage lib o feed acc url (pre.foldl (processMessage lib o feed acc url) s) m) := by
  simp [List.foldl_append]

/-! ## The log and the counter along the loop -/

theorem isUpdate_update (i : Nat) (m : Message) (id : Nat) (ok : Bool) :
    (DbCall.update i m id ok).isUpdate = true := rfl

theorem isUpdate_insert (i : Nat) (m : Message) (ok : Bool) :
    (DbCall.insert i m ok).isUpdate = false := rfl

theorem insertSucceeded_insert (i : Nat) (m : Message) (ok : Bool) :
    (DbCall.insert i m ok).insertSucceeded = ok := rfl

theorem insertSucceeded_update (i : Nat) (m : Message) (id : Nat) (ok : Bool) :
    (DbCall.update i m id ok).insertSucceeded = false := rfl

theorem updateSucceeded_update (i : Nat) (m : Message) (id : Nat) (ok : Bool) :
    (DbCall.update i m id ok).updateSucceeded = ok := rfl

theorem updateSucceeded_insert (i : Nat) (m : Message) (ok : Bool) :
    (DbCall.insert i m ok).updateSucceeded = false := rfl

theorem hitAt_append (f : DbCall → Bool) (a b : List DbCall) (i : Nat) :
    hitAt f (a ++ b) i = (hitAt f a i || hitAt f b i) := by
  simp [hitAt, List.any_append]

theorem hitAt_old (f : DbCall → Bool) (calls : List DbCall) (n i : Nat)
    (hpos : ∀ c ∈ calls, ∀ j, c.position = some j → j < n) (hi : n ≤ i) :
    hitAt f calls i = false := by
  simp only [hitAt, List.any_eq_false, Bool.and_eq_true, beq_iff_eq, not_and]
  intro c hc hp
  have := hpos c hc i hp
  omega

theorem hitAt_new_ne (f : DbCall → Bool) (new : List DbCall) (n i : Nat)
    (hnew : ∀ c ∈ new, c.position = some n) (hi : i ≠ n) :
    hitAt f new i = false := by
  simp only [hitAt, List.any_eq_false, Bool.and_eq_true, beq_iff_eq, not_and]
  intro c hc hp
  rw [hnew c hc] at hp
  exact absurd (Option.some.inj hp).symm hi

theorem hitAt_new_eq (f : DbCall → Bool) (new : List DbCall) (n : Nat)
    (hnew : ∀ c ∈ new, c.position = some n) :
    hitAt f new n = new.any f := by
  induction new with
  | nil => rfl
  | cons a t ih =>
    have ha : a.position = some n := hnew a (List.mem_cons_self a t)
    have ht := ih (fun c hc => hnew c (List.mem_cons_of_mem a hc))
    simp only [hitAt, List.any_cons] at ht ⊢
    rw [ht, ha]
    simp

theorem hitAt_none (f : DbCall → Bool) (extra : List DbCall) (i : Nat)
    (h : ∀ c ∈ extra, c.position = none) : hitAt f extra i = false := by
  simp only [hitAt, List.any_eq_false, Bool.and_eq_true, beq_iff_eq, not_and]
  intro c hc hp
  rw [h c hc] at hp
  cases hp

theorem unreadAt_append_lt (pre : List Message) (m : Message) (i : Nat) (hi : i < pre.length) :
    unreadAt (pre ++ [m]) i = unreadAt pre i := by
  simp [unreadAt, List.getElem?_append_left hi]

theorem unreadAt_append_length (pre : List Message) (m : Message) :
    unreadAt (pre ++ [m]) pre.length = !m.m_isRead := by
  simp [unreadAt]

/-- Counting over the positions of the batch after one more message, whose
calls `new` all carry position `pre.length`. -/
theorem count_step (calls new : List DbCall) (pre : List Message) (m : Message)
    (hpos : ∀ c ∈ calls, ∀ j, c.position = some j → j < pre.length)
    (hnew : ∀ c ∈ new, c.position = some pre.length) :
    (List.range (pre ++ [m]).length).countP (insertedAt (calls ++ new))
      + (List.range (pre ++ [m]).length).countP
          (fun i => updatedAt (calls ++ new) i && unreadAt (pre ++ [m]) i)
    = ((List.range pre.length).countP (insertedAt calls)
        + (List.range pre.length).countP (fun i => updatedAt calls i && unreadAt pre i))
      + ((if new.any DbCall.insertSucceeded then 1 else 0)
        + (if new.any DbCall.updateSucceeded && !m.m_isRead then 1 else 0)) := by
  have h1 : (List.range pre.length).countP (insertedAt (calls ++ new))
      = (List.range pre.length).countP (insertedAt calls) := by
    apply List.countP_congr
    intro i hi
    have hlt : i < pre.length := List.mem_range.1 hi
    simp [insertedAt, hitAt_append, hitAt_new_ne _ new pre.length i hnew (Nat.ne_of_lt hlt)]
  have h2 : (List.range pre.length).countP
        (fun i => updatedAt (calls ++ new) i && unreadAt (pre ++ [m]) i)
      = (List.range pre.length).countP (fun i => updatedAt calls i && unreadAt pre i) := by
    apply List.countP_congr
    intro i hi
    have hlt : i < pre.length := List.mem_range.1 hi
    simp [updatedAt, hitAt_append, hitAt_new_ne _ new pre.length i hnew (Nat.ne_of_lt hlt),
      unreadAt_append_lt pre m i hlt]
  have h3 : insertedAt (calls ++ new) pre.length = new.any DbCall.insertSucceeded := by
    simp [insertedAt, hitAt_append, hitAt_old _ calls pre.length pre.length hpos (le_refl _),
      hitAt_new_eq _ new pre.length hnew]
  have h4 : updatedAt (calls ++ new) pre.length = new.any DbCall.updateSucceeded := by
    simp [updatedAt, hitAt_append, hitAt_old _ calls pre.length pre.length hpos (le_refl _),
      hitAt_new_eq _ new pre.length hnew]
  rw [List.length_append, List.length_singleton, List.range_succ, List.countP_append,
    List.countP_append, h1, h2, List.countP_singleton, List.countP_singleton, h3, h4,
    unreadAt_append_length]
  omega

theorem selectCall_position (o : DbOracle) (i : Nat) (m : Message) :
    (selectCall o i m).position = some i := by
  unfold selectCall; split <;> rfl

theorem selectCall_insertSucceeded (o : DbOracle) (i : Nat) (m : Message) :
    (selectCall o i m).insertSucceeded = false := by
  unfold selectCall; split <;> rfl

theorem selectCall_updateSucceeded (o : DbOracle) (i : Nat) (m : Message) :
    (selectCall o i m).updateSucceeded = false := by
  unfold selectCall; split <;> rfl

/-- What one iteration appends to the log and adds to the counter. -/
theorem processMessage_log (lib : Library) (o : DbOracle) (feed acc : Int) (url : String)
    (s : LoopState) (m : Message) :
    ∃ new : List DbCall,
      (processMessage lib o feed acc url s m).calls = s.calls ++ new
      ∧ (∀ c ∈ new, c.position = some s.index)
      ∧ (processMessage lib o feed acc url s m).index = s.index + 1
      ∧ (processMessage lib o feed acc url s m).updated_messages = s.updated_messages
          + ((if new.any DbCall.insertSucceeded then 1 else 0)
            + (if new.any DbCall.updateSucceeded && !m.m_isRead then 1 else 0))
      ∧ (processMessage lib o feed acc url s m).any_message_changed =
          (s.any_message_changed || new.any DbCall.isUpdate) := by
  cases hfind : findExisting o feed acc s.index s.db (normalizeMessage lib url m) with
  | none =>
    refine ⟨_, congrArg LoopState.calls (processMessage_insert lib o feed acc url s m hfind),
      ?_, ?_, ?_, ?_⟩
    · intro c hc
      simp only [List.mem_cons, List.mem_singleton, List.mem_nil_iff, or_false] at hc
      rcases hc with rfl | rfl
      · exact selectCall_position _ _ _
      · rfl
    · rw [processMessage_insert lib o feed acc url s m hfind]
    · rw [processMessage_insert lib o feed acc url s m hfind]
      simp only [List.any_cons, List.any_nil, selectCall_insertSucceeded,
        selectCall_updateSucceeded, insertSucceeded_insert, updateSucceeded_insert]
      cases o.insert_ok s.index <;> simp
    · rw [processMessage_insert lib o feed acc url s m hfind]
      simp only [List.any_cons, List.any_nil, selectCall_isUpdate, isUpdate_insert]
      simp
  | some row =>
    cases hcond : updateCondition (normalizeMessage lib url m) row with
    | false =>
      have hstep := processMessage_skip lib o feed acc url s m row hfind hcond
      refine ⟨_, congrArg LoopState.calls hstep, ?_, ?_, ?_, ?_⟩
      · intro c hc
        simp only [List.mem_singleton] at hc
        rw [hc]
        exact selectCall_position _ _ _
      · rw [hstep]
      · rw [hstep]
        simp [selectCall_insertSucceeded, selectCall_updateSucceeded]
      · rw [hstep]
        simp [selectCall_isUpdate]
    | true =>
      have hstep := processMessage_update lib o feed acc url s m row hfind hcond
      refine ⟨_, congrArg LoopState.calls hstep, ?_, ?_, ?_, ?_⟩
      · intro c hc
        simp only [List.mem_cons, List.mem_singleton, List.mem_nil_iff, or_false] at hc
        rcases hc with rfl | rfl
        · exact selectCall_position _ _ _
        · rfl
      · rw [hstep]
      · rw [hstep]
        simp only [List.any_cons, List.any_nil, selectCall_insertSucceeded,
          selectCall_updateSucceeded, insertSucceeded_update, updateSucceeded_update]
        cases o.update_ok s.index <;> cases m.m_isRead <;> simp
      · rw [hstep]
        simp only [List.any_cons, List.any_nil, selectCall_isUpdate, isUpdate_update]
        simp

/-- Invariant of the loop: the position counter, the positions in the log, the
counter of updated messages and the changed flag. -/
theorem loop_invariant (lib : Library) (o : DbOracle) (feed acc : Int) (url : String)
    (any0 : Bool) (post : List Message) :
    ∀ (pre : List Message) (s : LoopState),
      s.index = pre.length →
      (∀ c ∈ s.calls, ∀ j, c.position = some j → j < pre.length) →
      s.updated_messages = (List.range pre.length).countP (insertedAt s.calls)
        + (List.range pre.length).countP (fun i => updatedAt s.calls i && unreadAt pre i) →
      s.any_message_changed = (any0 || s.calls.any DbCall.isUpdate) →
      (∀ c ∈ (post.foldl (processMessage lib o feed acc url) s).calls, ∀ j,
          c.position = some j → j < (pre ++ post).length)
      ∧ (post.foldl (processMessage lib o feed acc url) s).updated_messages =
          (List.range (pre ++ post).length).countP
            (insertedAt (post.foldl (processMessage lib o feed acc url) s).calls)
          + (List.range (pre ++ post).length).countP
            (fun i => updatedAt (post.foldl (processMessage lib o feed acc url) s).calls i
              && unreadAt (pre ++ post) i)
      ∧ (post.foldl (processMessage lib o feed acc url) s).any_message_changed =
          (any0 || (post.foldl (processMessage lib o feed acc url) s).calls.any DbCall.isUpdate) := by
  induction post with
  | nil =>
    intro pre s _ hpos hcount hany
    simpa using ⟨hpos, hcount, hany⟩
  | cons m post ih =>
    intro pre s hidx hpos hcount hany
    obtain ⟨new, hcalls, hnew, hindex, hupd, hchg⟩ := processMessage_log lib o feed acc url s m
    rw [hidx] at hnew hindex
    have hstep := ih (pre ++ [m]) (processMessage lib o feed acc url s m)
      (by rw [hindex]; simp)
      (by
        intro c hc j hj
        rw [hcalls] at hc
        rcases List.mem_append.1 hc with hc | hc
        · have := hpos c hc j hj
          simp; omega
        · rw [hnew c hc] at hj
          have := Option.some.inj hj
          simp; omega)
      (by rw [hcalls, count_step s.calls new pre m hpos hnew, hupd, hcount])
      (by rw [hchg, hany, hcalls, List.any_append, Bool.or_assoc])
    simpa [List.foldl_cons, List.append_assoc] using hstep

/-- The loop of `updateMessages` started on a non-empty batch: what is returned
and logged in terms of the state after the last message. -/
theorem updateMessages_started (lib : Library) (o : DbOracle) (db : List MessageRow)
    (messages : List Message) (feed acc : Int) (url : String) (any ok : Bool)
    (hne : messages ≠ []) (htx : o.transaction_ok = true) :
    (updateMessages lib o db messages feed acc url any ok).returned =
        (messages.foldl (processMessage lib o feed acc url)
          (initialState db any)).updated_messages
    ∧ (updateMessages lib o db messages feed acc url any ok).any_message_changed =
        (messages.foldl (processMessage lib o feed acc url)
          (initialState db any)).any_message_changed
    ∧ ∃ extra : List DbCall,
        (updateMessages lib o db messages feed acc url any ok).calls =
          (messages.foldl (processMessage lib o feed acc url) (initialState db any)).calls
            ++ extra
        ∧ (∀ c ∈ extra, c.position = none) ∧ extra.any DbCall.isUpdate = false := by
  have hemp : messages.isEmpty = false := by
    cases messages with
    | nil => exact absurd rfl hne
    | cons a t => rfl
  unfold updateMessages
  simp only [hemp, htx]
  cases o.commit_ok
  · refine ⟨rfl, rfl, _, rfl, ?_, ?_⟩
    · intro c hc
      simp only [List.mem_cons, List.mem_singleton, List.mem_nil_iff, or_false] at hc
      rcases hc with rfl | rfl | rfl <;> rfl
    · rfl
  · refine ⟨rfl, rfl, _, rfl, ?_, ?_⟩
    · intro c hc
      simp only [List.mem_cons, List.mem_singleton, List.mem_nil_iff, or_false] at hc
      rcases hc with rfl | rfl <;> rfl
    · rfl

/-- For a non-empty batch whose transaction starts, the flag reported is the
caller's previous value or-ed with "an update was issued". -/
theorem updateMessages_any_message_changed_eq (lib : Library) (o : DbOracle)
    (db : List MessageRow) (messages : List Message) (feed acc : Int) (url : String)
    (any ok : Bool) (hne : messages ≠ []) (htx : o.transaction_ok = true) :
    (updateMessages lib o db messages feed acc url any ok).any_message_changed =
      (any || (updateMessages lib o db messages feed acc url any ok).calls.any
        DbCall.isUpdate) := by
  obtain ⟨_, hany, extra, hcalls, _, hupd⟩ :=
    updateMessages_started lib o db messages feed acc url any ok hne htx
  have hinv := (loop_invariant lib o feed acc url any messages [] (initialState db any) rfl
    (by intro c hc j hj; simp [initialState] at hc; rw [hc] at hj; cases hj)
    (by simp [initialState]) (by simp [initialState, DbCall.isUpdate])).2.2
  rw [hany, hcalls, List.any_append, hupd, Bool.or_false]
  exact hinv

/-- When `db.transaction()` fails on a non-empty batch, the function logs the
failed start and the rollback, returns 0 and leaves the table and both
out-variables as they were. -/
theorem transaction_failure_outcome (lib : Library) (o : DbOracle)
    (db : List MessageRow) (messages : List Message) (feed acc : Int) (url : String)
    (any ok : Bool) (hne : messages ≠ []) (htx : o.transaction_ok = false) :
    updateMessages lib o db messages feed acc url any ok =
      { returned := 0, any_message_changed := any, ok := ok, db := db,
        calls := [.transaction false, .rollback] } := by
  have hemp : messages.isEmpty = false := by
    cases messages with
    | nil => exact absurd rfl hne
    | cons a t => rfl
  unfold updateMessages
  simp [hemp, htx]

/-! ## Identity lookup and URL replacement -/

theorem findExisting_customId (o : DbOracle) (feed acc : Int) (i : Nat) (db : List MessageRow)
    (m : Message) (hid : isEmpty m.m_customId = false) (hsel : o.select_ok i = true) :
    findExisting o feed acc i db m = query_select_with_id db m.m_customId acc := by
  simp [findExisting, hid, hsel]

theorem findExisting_url (o : DbOracle) (feed acc : Int) (i : Nat) (db : List MessageRow)
    (m : Message) (hid : isEmpty m.m_customId = true) (hsel : o.select_ok i = true) :
    findExisting o feed acc i db m =
      query_select_with_url db feed m.m_title m.m_url m.m_author acc := by
  simp [findExisting, hid, hsel]

theorem findExisting_failed (o : DbOracle) (feed acc : Int) (i : Nat) (db : List MessageRow)
    (m : Message) (hsel : o.select_ok i = false) :
    findExisting o feed acc i db m = none := by
  simp [findExisting, hsel]

/-- A row that is in the table after one iteration and was not there before
carries the URL of the normalised message. -/
theorem processMessage_new_row_url (lib : Library) (o : DbOracle) (feed acc : Int)
    (url : String) (s : LoopState) (m : Message) :
    ∀ row ∈ (processMessage lib o feed acc url s m).db, row ∉ s.db →
      row.url = normalizeUrl lib url m.m_url := by
  intro row hrow hnew
  cases hfind : findExisting o feed acc s.index s.db (normalizeMessage lib url m) with
  | none =>
    rw [processMessage_insert lib o feed acc url s m hfind] at hrow
    cases hok : o.insert_ok s.index
    · simp [hok] at hrow
      exact absurd hrow hnew
    · simp only [hok, if_true, query_insert, List.mem_append, List.mem_singleton] at hrow
      rcases hrow with h | h
      · exact absurd h hnew
      · rw [h]; rfl
  | some found =>
    cases hcond : updateCondition (normalizeMessage lib url m) found with
    | false =>
      rw [processMessage_skip lib o feed acc url s m found hfind hcond] at hrow
      exact absurd hrow hnew
    | true =>
      rw [processMessage_update lib o feed acc url s m found hfind hcond] at hrow
      cases hok : o.update_ok s.index
      · simp [hok] at hrow
        exact absurd hrow hnew
      · simp only [hok, if_true, query_update, List.mem_map] at hrow
        obtain ⟨x, hx, hxe⟩ := hrow
        by_cases hid : x.id = found.id
        · simp only [hid, if_true] at hxe
          rw [← hxe]; rfl
        · simp only [hid, if_false] at hxe
          rw [← hxe] at hnew
          exact absurd hx hnew

theorem startsWith_http (x : String) (p : String) (hp : p.data.head? = some '/') :
    startsWith (URI_SCHEME_HTTP ++ x) p = false := by
  cases p with
  | mk d =>
    cases d with
    | nil => simp at hp
    | cons c t =>
      simp only [List.head?_cons, Option.some.injEq] at hp
      subst hp
      simp [startsWith, URI_SCHEME_HTTP, String.data_append, List.isPrefixOf]

theorem startsWith_slash_of_slashes (u : String) (h : startsWith u "//" = true) :
    startsWith u "/" = true := by
  cases u with
  | mk d =>
    cases d with
    | nil => simp [startsWith, List.isPrefixOf] at h
    | cons c t =>
      cases t with
      | nil => simp [startsWith, List.isPrefixOf] at h
      | cons c2 t2 =>
        simp only [startsWith, List.isPrefixOf, Bool.and_eq_true, beq_iff_eq] at h ⊢
        exact ⟨h.1, trivial⟩

/-- The loop body reads the candidate only through the normalised message. -/
theorem processMessage_congr (lib : Library) (o : DbOracle) (feed acc : Int)
    (url url2 : String) (s : LoopState) (m m2 : Message)
    (h : normalizeMessage lib url2 m2 = normalizeMessage lib url m) :
    processMessage lib o feed acc url2 s m2 = processMessage lib o feed acc url s m := by
  unfold processMessage
  simp only [h]

/-- A candidate whose identity lookup fails to execute is handled as a message
that is not stored: the insert is issued. -/
theorem processMessage_failed_lookup (lib : Library) (o : DbOracle) (feed acc : Int)
    (url : String) (s : LoopState) (m : Message) (hsel : o.select_ok s.index = false) :
    (callsSince s (processMessage lib o feed acc url s m)).any DbCall.isInsert = true
    ∧ (o.insert_ok s.index = true →
        (processMessage lib o feed acc url s m).db =
          s.db ++ [insertedRow lib s.db feed acc (normalizeMessage lib url m)]
        ∧ (processMessage lib o feed acc url s m).updated_messages = s.updated_messages + 1) := by
  have hstep := processMessage_insert lib o feed acc url s m
    (findExisting_failed o feed acc s.index s.db _ hsel)
  refine ⟨?_, fun hok => ?_⟩
  · rw [callsSince_append s _ _ (congrArg LoopState.calls hstep)]
    simp [DbCall.isInsert]
  · rw [hstep]
    simp [hok, query_insert]

/-- A candidate whose insert or update fails to execute leaves the table and
the counter of updated messages as they were. -/
theorem processMessage_failed_write (lib : Library) (o : DbOracle) (feed acc : Int)
    (url : String) (s : LoopState) (m : Message) (hins : o.insert_ok s.index = false)
    (hupd : o.update_ok s.index = false) :
    (processMessage lib o feed acc url s m).db = s.db
    ∧ (processMessage lib o feed acc url s m).updated_messages = s.updated_messages := by
  cases hfind : findExisting o feed acc s.index s.db (normalizeMessage lib url m) with
  | none =>
    rw [processMessage_insert lib o feed acc url s m hfind]
    simp [hins]
  | some row =>
    cases hcond : updateCondition (normalizeMessage lib url m) row with
    | false =>
      rw [processMessage_skip lib o feed acc url s m row hfind hcond]
      exact ⟨rfl, rfl⟩
    | true =>
      rw [processMessage_update lib o feed acc url s m row hfind hcond]
      simp [hupd]

/-! ## Lookups after an insert, an update and the fixup -/

theorem find?_congr_mem {p q : MessageRow → Bool} {l : List MessageRow}
    (h : ∀ x ∈ l, p x = q x) : l.find? p = l.find? q := by
  induction l with
  | nil => rfl
  | cons a t ih =>
    have ha := h a (List.mem_cons_self a t)
    have ht := ih (fun x hx => h x (List.mem_cons_of_mem a hx))
    simp only [List.find?_cons, ha, ht]

/-- When every statement executes, the identity lookup is the first row that
satisfies `identityClause`, whatever the position of the message. -/
theorem findExisting_allSucceed (feed acc : Int) (i : Nat) (db : List MessageRow)
    (m : Message) :
    findExisting allSucceed feed acc i db m = db.find? (identityClause feed acc m) := by
  unfold findExisting query_select_with_url query_select_with_id
  cases h : isEmpty m.m_customId
  · simp only [allSucceed, if_true]
    apply find?_congr_mem
    intro x _
    simp [identityClause, h]
  · simp only [allSucceed, if_true]
    apply find?_congr_mem
    intro x _
    simp [identityClause, h]

/-- Rows with pairwise different primary keys: a row is determined by its key. -/
theorem eq_of_id_eq {db : List MessageRow} (hnd : (db.map MessageRow.id).Nodup)
    {a b : MessageRow} (ha : a ∈ db) (hb : b ∈ db) (h : a.id = b.id) : a = b :=
  List.inj_on_of_nodup_map hnd ha hb h

/-- The table after one iteration when every statement executes. -/
theorem processMessage_allSucceed_db (lib : Library) (feed acc : Int) (url : String)
    (s : LoopState) (m : Message) :
    (processMessage lib allSucceed feed acc url s m).db =
      match s.db.find? (identityClause feed acc (normalizeMessage lib url m)) with
      | some row =>
        if updateCondition (normalizeMessage lib url m) row then
          query_update lib s.db row.id (normalizeMessage lib url m)
        else s.db
      | none => query_insert lib s.db feed acc (normalizeMessage lib url m) := by
  have hfe := findExisting_allSucceed feed acc s.index s.db (normalizeMessage lib url m)
  cases hfind : s.db.find? (identityClause feed acc (normalizeMessage lib url m)) with
  | none =>
    rw [hfind] at hfe
    rw [processMessage_insert lib allSucceed feed acc url s m hfe]
    rfl
  | some row =>
    rw [hfind] at hfe
    cases hcond : updateCondition (normalizeMessage lib url m) row with
    | false =>
      rw [processMessage_skip lib allSucceed feed acc url s m row hfe hcond]
      simp [hcond]
    | true =>
      rw [processMessage_update lib allSucceed feed acc url s m row hfe hcond]
      simp [allSucceed, hcond]

/-- One iteration for a message with a custom ID adds no row without one. -/
theorem no_missing_custom_id_step (lib : Library) (feed acc : Int) (url : String)
    (s : LoopState) (m : Message) (hid : isEmpty m.m_customId = false)
    (h : ∀ r ∈ s.db, lacksCustomId r = false) :
    ∀ r ∈ (processMessage lib allSucceed feed acc url s m).db, lacksCustomId r = false := by
  rw [processMessage_allSucceed_db]
  cases hfind : s.db.find? (identityClause feed acc (normalizeMessage lib url m)) with
  | none =>
    intro r hr
    simp only [query_insert, List.mem_append, List.mem_singleton] at hr
    rcases hr with hr | hr
    · exact h r hr
    · rw [hr]
      simpa [lacksCustomId, insertedRow, normalizeMessage] using hid
  | some row =>
    cases hcond : updateCondition (normalizeMessage lib url m) row with
    | false => simpa [hcond] using h
    | true =>
      simp only [hcond, if_true, query_update]
      intro r hr
      simp only [List.mem_map] at hr
      obtain ⟨x, hx, hxr⟩ := hr
      rw [← hxr]
      split
      · exact h x hx
      · exact h x hx

theorem no_missing_custom_id_loop (lib : Library) (feed acc : Int) (url : String)
    (msgs : List Message) :
    ∀ s : LoopState, (∀ m ∈ msgs, isEmpty m.m_customId = false) →
      (∀ r ∈ s.db, lacksCustomId r = false) →
      ∀ r ∈ (msgs.foldl (processMessage lib allSucceed feed acc url) s).db,
        lacksCustomId r = false := by
  induction msgs with
  | nil => intro s _ h; simpa using h
  | cons m t ih =>
    intro s hid h
    rw [List.foldl_cons]
    exact ih _ (fun x hx => hid x (List.mem_cons_of_mem m hx))
      (no_missing_custom_id_step lib feed acc url s m (hid m (List.mem_cons_self m t)) h)

/-- The outcome of a non-empty batch when every database call succeeds. -/
theorem updateMessages_allSucceed (lib : Library) (db : List MessageRow)
    (messages : List Message) (feed acc : Int) (url : String) (any ok : Bool)
    (hne : messages ≠ []) :
    updateMessages lib allSucceed db messages feed acc url any ok =
      { returned := (messages.foldl (processMessage lib allSucceed feed acc url)
          (initialState db any)).updated_messages
        any_message_changed := (messages.foldl (processMessage lib allSucceed feed acc url)
          (initialState db any)).any_message_changed
        ok := true
        db := fixupCustomIds (messages.foldl (processMessage lib allSucceed feed acc url)
          (initialState db any)).db
        calls := (messages.foldl (processMessage lib allSucceed feed acc url)
          (initialState db any)).calls ++ [.fixup true, .commit true] } := by
  have hemp : messages.isEmpty = false := by
    cases messages with
    | nil => exact absurd rfl hne
    | cons a t => rfl
  unfold updateMessages
  simp [hemp, allSucceed]

/-! ## The fixup statement -/

theorem toDigitsCore_ne_nil (b : Nat) : ∀ (fuel n : Nat) (ds : List Char), ds ≠ [] →
    Nat.toDigitsCore b fuel n ds ≠ [] := by
  intro fuel
  induction fuel with
  | zero => intro n ds h; simpa [Nat.toDigitsCore] using h
  | succ f ih =>
    intro n ds h
    simp only [Nat.toDigitsCore]
    split
    · simp
    · exact ih _ _ (by simp)

theorem toDigits_ne_nil (b n : Nat) : Nat.toDigits b n ≠ [] := by
  simp only [Nat.toDigits, Nat.toDigitsCore]
  split
  · simp
  · exact toDigitsCore_ne_nil b _ _ _ (by simp)

/-- The decimal text of a primary key is not empty. -/
theorem isEmpty_toString (n : Nat) : isEmpty (toString n) = false := by
  have h : (toString n).data ≠ [] := by
    show (Nat.repr n).data ≠ []
    simp only [Nat.repr, List.asString]
    exact toDigits_ne_nil 10 n
  unfold isEmpty
  cases hd : (toString n).data with
  | nil => exact absurd hd h
  | cons a t => rfl

/-- After the fixup statement no row lacks a custom ID. -/
theorem fixupCustomIds_complete (db : List MessageRow) :
    ∀ r ∈ fixupCustomIds db, lacksCustomId r = false := by
  intro r hr
  simp only [fixupCustomIds, List.mem_map] at hr
  obtain ⟨x, _, hx⟩ := hr
  by_cases hl : lacksCustomId x = true
  · simp only [hl, if_true] at hx
    rw [← hx]
    simp [lacksCustomId, isEmpty_toString]
  · simp only [hl] at hx
    rw [← hx]
    simpa using hl

/-- The fixup statement leaves a table in which no row lacks a custom ID as it is. -/
theorem fixupCustomIds_of_complete (db : List MessageRow)
    (h : ∀ r ∈ db, lacksCustomId r = false) : fixupCustomIds db = db := by
  unfold fixupCustomIds
  conv_rhs => rw [← List.map_id db]
  apply List.map_congr_left
  intro r hr
  simp [h r hr]

/-- The table after a non-empty batch whose transaction, fixup and commit succeed. -/
theorem updateMessages_committed_db (lib : Library) (o : DbOracle) (db : List MessageRow)
    (messages : List Message) (feed acc : Int) (url : String) (any ok : Bool)
    (hne : messages ≠ []) (htx : o.transaction_ok = true) (hfix : o.fixup_ok = true)
    (hcommit : o.commit_ok = true) :
    (updateMessages lib o db messages feed acc url any ok).db =
      fixupCustomIds (messages.foldl (processMessage lib o feed acc url)
        (initialState db any)).db := by
  have hemp : messages.isEmpty = false := by
    cases messages with
    | nil => exact absurd rfl hne
    | cons a t => rfl
  unfold updateMessages
  simp [hemp, htx, hfix, hcommit]

/-! ## Applying a batch twice -/

/-- C1: for a candidate with a non-empty customId whose customId lookup executes
and reads a stored row, the loop body issues the update statement if and only
if the creation timestamp, isRead or isImportant differs between the stored row
and the candidate; it never issues an insert; when the update executes the
table becomes the one written by the update statement, and when no update is
due the table is unchanged. -/
theorem updateMessages_customId_update_iff (lib : Library) (o : DbOracle) (feed acc : Int)
    (url : String) (s : LoopState) (m : Message) (row : MessageRow)
    (hid : m.m_customId ≠ "")
    (hsel : o.select_ok s.index = true)
    (hrow : query_select_with_id s.db m.m_customId acc = some row) :
    ((callsSince s (processMessage lib o feed acc url s m)).any DbCall.isUpdate = true ↔
        (m.m_created ≠ row.date_created ∨ m.m_isRead ≠ toBool row.is_read ∨
          m.m_isImportant ≠ toBool row.is_important))
    ∧ (callsSince s (processMessage lib o feed acc url s m)).any DbCall.isInsert = false
    ∧ ((m.m_created ≠ row.date_created ∨ m.m_isRead ≠ toBool row.is_read ∨
          m.m_isImportant ≠ toBool row.is_important) → o.update_ok s.index = true →
        (processMessage lib o feed acc url s m).db =
          query_update lib s.db row.id (normalizeMessage lib url m))
    ∧ (¬ (m.m_created ≠ row.date_created ∨ m.m_isRead ≠ toBool row.is_read ∨
          m.m_isImportant ≠ toBool row.is_important) →
        (processMessage lib o feed acc url s m).db = s.db) := by
  have hne : isEmpty (normalizeMessage lib url m).m_customId = false := isEmpty_eq_false hid
  have hfind : findExisting o feed acc s.index s.db (normalizeMessage lib url m) = some row := by
    simp only [findExisting, hne, hsel]
    simpa [normalizeMessage] using hrow
  have hiff := updateCondition_customId (m := normalizeMessage lib url m) row hne
  simp only [normalizeMessage] at hiff
  cases hc : updateCondition (normalizeMessage lib url m) row
  · have hno : ¬ (m.m_created ≠ row.date_created ∨ m.m_isRead ≠ toBool row.is_read ∨
        m.m_isImportant ≠ toBool row.is_important) := by
      intro h
      have := hiff.2 h
      simp [normalizeMessage] at hc
      simp [hc] at this
    have hstep := processMessage_skip lib o feed acc url s m row hfind hc
    have hcalls := callsSince_append s _ _ (congrArg LoopState.calls hstep)
    refine ⟨?_, ?_, ?_, ?_⟩
    · rw [hcalls]
      simp [selectCall_isUpdate, hno]
    · rw [hcalls]
      simp [selectCall_isInsert]
    · intro h; exact absurd h hno
    · intro _; rw [hstep]
  · have hyes : (m.m_created ≠ row.date_created ∨ m.m_isRead ≠ toBool row.is_read ∨
        m.m_isImportant ≠ toBool row.is_important) := hiff.1 (by simpa [normalizeMessage] using hc)
    have hstep := processMessage_update lib o feed acc url s m row hfind hc
    have hcalls := callsSince_append s _ _ (congrArg LoopState.calls hstep)
    refine ⟨?_, ?_, ?_, ?_⟩
    · rw [hcalls]
      simp only [List.any_cons, List.any_nil, selectCall_isUpdate]
      simp [DbCall.isUpdate, hyes]
    · rw [hcalls]
      simp only [List.any_cons, List.any_nil, selectCall_isInsert]
      rfl
    · intro _ hu; rw [hstep]; simp [hu]
    · intro h; exact absurd hyes h

/-- Witness of C1: stored row with customId 42, unread, timestamp 100; the
candidate with customId 42, read, timestamp 100 is updated, and after the whole
batch the stored isRead is 1. -/
theorem updateMessages_customId_update_iff_witness :
    (callsSince (initialState [storedRow42] false)
        (processMessage sampleLibrary allSucceed 7 1 "https://s/feed"
          (initialState [storedRow42] false) candidate42)).any DbCall.isUpdate = true
    ∧ (updateMessages sampleLibrary allSucceed [storedRow42] [candidate42] 7 1
        "https://s/feed" false false).db.map MessageRow.is_read = [1] :=
  ⟨(updateMessages_customId_update_iff sampleLibrary allSucceed 7 1 "https://s/feed"
      (initialState [storedRow42] false) candidate42 storedRow42 (by decide) rfl
      (by decide)).1.2 (Or.inr (Or.inl (by decide))), by decide⟩

/-- Counterexample to C3: `storedRowA` is read and starred and is matched by
feed, title, URL and author; the unread, unstarred candidate with a new
timestamp from the feed is updated, and after the batch the stored row is
unread and unstarred. -/
theorem updateMessages_url_match_overwrites_state :
    isEmpty (candidateA 200 true).m_customId = true
    ∧ query_select_with_url [storedRowA] 7 "A" "https://s/x" "x" 1 = some storedRowA
    ∧ [storedRowA].map (fun r => (r.id, r.is_read, r.is_important)) = [(1, 1, 1)]
    ∧ (updateMessages sampleLibrary allSucceed [storedRowA] [candidateA 200 true] 7 1
        "https://s/feed" false false).db.map (fun r => (r.id, r.is_read, r.is_important))
        = [(1, 0, 0)]
    ∧ ¬ ((updateMessages sampleLibrary allSucceed [storedRowA] [candidateA 200 true] 7 1
        "https://s/feed" false false).db.map (fun r => (r.is_read, r.is_important))
        = [storedRowA].map (fun r => (r.is_read, r.is_important))) := by
  decide

/-- C3 (amended): for a candidate matched by feed, title, URL and author (empty
customId), the loop body leaves is_read and is_important of every stored row
as they were when no update is due (createdFromFeed false or equal timestamps)
and when the update statement fails; when the update is due and executes,
is_read and is_important of the matched row become the candidate's isRead and
isImportant, and rows with another id keep theirs. -/
theorem updateMessages_url_match_state (lib : Library) (o : DbOracle) (feed acc : Int)
    (url : String) (s : LoopState) (m : Message) (row : MessageRow)
    (hid : m.m_customId = "")
    (hsel : o.select_ok s.index = true)
    (hrow : query_select_with_url s.db feed m.m_title (normalizeUrl lib url m.m_url) m.m_author
      acc = some row) :
    (¬ (m.m_createdFromFeed = true ∧ m.m_created ≠ row.date_created) →
        (processMessage lib o feed acc url s m).db = s.db)
    ∧ (o.update_ok s.index = false → (processMessage lib o feed acc url s m).db = s.db)
    ∧ ((m.m_createdFromFeed = true ∧ m.m_created ≠ row.date_created) →
        o.update_ok s.index = true →
        (processMessage lib o feed acc url s m).db.length = s.db.length ∧
        ∀ (k : Nat) (r : MessageRow), s.db[k]? = some r →
          ∃ r2 : MessageRow, (processMessage lib o feed acc url s m).db[k]? = some r2 ∧
          (r.id = row.id → r2.is_read = boolToInt m.m_isRead ∧
            r2.is_important = boolToInt m.m_isImportant) ∧
          (r.id ≠ row.id → r2 = r)) := by
  have he : isEmpty (normalizeMessage lib url m).m_customId = true := (isEmpty_iff _).2 hid
  have hfind : findExisting o feed acc s.index s.db (normalizeMessage lib url m) = some row := by
    simp only [findExisting, he, hsel]
    simpa [normalizeMessage] using hrow
  have hiff := updateCondition_url (m := normalizeMessage lib url m) row he
  simp only [normalizeMessage] at hiff
  cases hc : updateCondition (normalizeMessage lib url m) row
  · have hno : ¬ (m.m_createdFromFeed = true ∧ m.m_created ≠ row.date_created) := by
      intro h
      have := hiff.2 h
      simp [normalizeMessage] at hc
      simp [hc] at this
    have hstep := processMessage_skip lib o feed acc url s m row hfind hc
    refine ⟨fun _ => by rw [hstep], fun _ => by rw [hstep], fun h => absurd h hno⟩
  · have hstep := processMessage_update lib o feed acc url s m row hfind hc
    refine ⟨fun h => absurd (hiff.1 (by simpa [normalizeMessage] using hc)) h,
      fun hu => by rw [hstep]; simp [hu], fun _ hu => ?_⟩
    rw [hstep]
    simp only [hu, if_true, query_update, List.length_map, true_and]
    intro k r hk
    by_cases hidr : r.id = row.id
    · exact ⟨updatedRow lib (normalizeMessage lib url m) r, by simp [hk, hidr],
        fun _ => ⟨rfl, rfl⟩, fun h => absurd hidr h⟩
    · exact ⟨r, by simp [hk, hidr], fun h => absurd h hidr, fun _ => rfl⟩

/-- Witness of C3 (amended): with equal timestamps the stored row keeps is_read = 1 and
is_important = 1 through the whole batch. -/
theorem updateMessages_url_match_state_witness :
    (processMessage sampleLibrary allSucceed 7 1 "https://s/feed"
        (initialState [storedRowA] false) (candidateA 100 true)).db = [storedRowA]
    ∧ (updateMessages sampleLibrary allSucceed [storedRowA] [candidateA 100 true] 7 1
        "https://s/feed" false false).db.map (fun r => (r.id, r.is_read, r.is_important))
        = [(1, 1, 1)] :=
  ⟨(updateMessages_url_match_state sampleLibrary allSucceed 7 1 "https://s/feed"
      (initialState [storedRowA] false) (candidateA 100 true) storedRowA rfl rfl
      (by decide)).1 (by decide), by decide⟩

/-- C4: when the identity lookup reads a stored row and the update condition is
false, the loop body issues neither an insert nor an update and leaves the
table as it was; a candidate without customId whose timestamp equals the stored
one is such a case whatever its createdFromFeed flag; and when that candidate
is the whole batch, every stored row has the same is_read and is_important
after `updateMessages` as before. -/
theorem updateMessages_skip_untouched (lib : Library) (o : DbOracle) (feed acc : Int)
    (url : String) (s : LoopState) (m : Message) (row : MessageRow)
    (hfind : findExisting o feed acc s.index s.db (normalizeMessage lib url m) = some row)
    (hcond : updateCondition (normalizeMessage lib url m) row = false) :
    (callsSince s (processMessage lib o feed acc url s m)).any DbCall.isInsert = false
    ∧ (callsSince s (processMessage lib o feed acc url s m)).any DbCall.isUpdate = false
    ∧ (processMessage lib o feed acc url s m).db = s.db
    ∧ (processMessage lib o feed acc url s m).updated_messages = s.updated_messages
    ∧ (∀ (c : Message) (r : MessageRow), isEmpty c.m_customId = true →
        c.m_created = r.date_created → updateCondition c r = false)
    ∧ (s.index = 0 → ∀ any ok : Bool,
        (updateMessages lib o s.db [m] feed acc url any ok).db.map
            (fun r => (r.id, r.is_read, r.is_important))
          = s.db.map (fun r => (r.id, r.is_read, r.is_important))) := by
  have hstep := processMessage_skip lib o feed acc url s m row hfind hcond
  have hcalls := callsSince_append s _ _ (congrArg LoopState.calls hstep)
  refine ⟨?_, ?_, ?_, ?_, ?_, ?_⟩
  · rw [hcalls]; simp [selectCall_isInsert]
  · rw [hcalls]; simp [selectCall_isUpdate]
  · rw [hstep]
  · rw [hstep]
  · intro c r hc ht
    cases h : updateCondition c r
    · rfl
    · exact absurd ht ((updateCondition_url r hc).1 h).2
  · intro h0 any ok
    have hfind0 : findExisting o feed acc (initialState s.db any).index (initialState s.db any).db
        (normalizeMessage lib url m) = some row := by
      simpa [initialState, h0] using hfind
    have hstep0 := processMessage_skip lib o feed acc url (initialState s.db any) m row
      hfind0 hcond
    have hdb : (processMessage lib o feed acc url (initialState s.db any) m).db = s.db := by
      rw [hstep0]; rfl
    rcases updateMessages_singleton_db lib o s.db m feed acc url any ok with h | h | h
    · rw [h]
    · rw [h, hdb]
    · rw [h, hdb, fixupCustomIds_flags]

/-- Witness of C4: `storedRowA` has is_read = 1; the unread candidate with the same
title, URL, author and timestamp is skipped, with createdFromFeed true and
with createdFromFeed false, and is_read is still 1 after the batch. -/
theorem updateMessages_skip_untouched_witness :
    (updateMessages sampleLibrary allSucceed [storedRowA] [candidateA 100 true] 7 1
        "https://s/feed" false false).db.map (fun r => (r.id, r.is_read, r.is_important))
      = [(1, 1, 1)]
    ∧ (updateMessages sampleLibrary allSucceed [storedRowA] [candidateA 100 false] 7 1
        "https://s/feed" false false).db.map (fun r => (r.id, r.is_read, r.is_important))
      = [(1, 1, 1)]
    ∧ (updateMessages sampleLibrary allSucceed [storedRowA] [candidateA 100 true] 7 1
        "https://s/feed" false false).calls
      = [.transaction true, .select_with_url 0 true, .fixup true, .commit true] :=
  ⟨(updateMessages_skip_untouched sampleLibrary allSucceed 7 1 "https://s/feed"
      (initialState [storedRowA] false) (candidateA 100 true) storedRowA (by decide)
      (by decide)).2.2.2.2.2 rfl false false,
   (updateMessages_skip_untouched sampleLibrary allSucceed 7 1 "https://s/feed"
      (initialState [storedRowA] false) (candidateA 100 false) storedRowA (by decide)
      (by decide)).2.2.2.2.2 rfl false false,
   by decide⟩

/-- C5: when the identity lookup reads no stored row, the loop body issues the
lookup and then exactly one insert; when the insert executes, the table gains
exactly one row, appended, with a primary key no stored row has, feed
feed_custom_id, account account_id, not deleted, and title, isRead,
isImportant, normalised url, author, timestamp, contents, encoded enclosures,
customId and customHash of the candidate (customId and customHash as supplied,
possibly empty); when the insert fails the table is unchanged. -/
theorem updateMessages_insert_new (lib : Library) (o : DbOracle) (feed acc : Int)
    (url : String) (s : LoopState) (m : Message)
    (hfind : findExisting o feed acc s.index s.db (normalizeMessage lib url m) = none) :
    callsSince s (processMessage lib o feed acc url s m) =
        [selectCall o s.index (normalizeMessage lib url m),
          .insert s.index (normalizeMessage lib url m) (o.insert_ok s.index)]
    ∧ (o.insert_ok s.index = true →
        (processMessage lib o feed acc url s m).db = s.db ++
          [{ id := nextId s.db
             is_read := boolToInt m.m_isRead
             is_deleted := 0
             is_important := boolToInt m.m_isImportant
             is_pdeleted := 0
             feed := feed
             title := m.m_title
             url := normalizeUrl lib url m.m_url
             author := m.m_author
             date_created := m.m_created
             contents := m.m_contents
             enclosures := lib.encodeEnclosuresToString m.m_enclosures
             custom_id := some m.m_customId
             custom_hash := m.m_customHash
             account_id := acc }]
        ∧ ∀ r ∈ s.db, r.id ≠ nextId s.db)
    ∧ (o.insert_ok s.index = false → (processMessage lib o feed acc url s m).db = s.db) := by
  have hstep := processMessage_insert lib o feed acc url s m hfind
  refine ⟨callsSince_append s _ _ (congrArg LoopState.calls hstep), ?_, ?_⟩
  · intro hok
    refine ⟨?_, fun r hr => Nat.ne_of_lt (lt_nextId s.db r hr)⟩
    rw [hstep]
    simp only [hok, if_true]
    rfl
  · intro hok
    rw [hstep]
    simp [hok]

/-- Witness of C5: in an empty table the candidate without customId is inserted as
row 1 with an empty custom_id. -/
theorem updateMessages_insert_new_witness :
    (processMessage sampleLibrary allSucceed 7 1 "https://s/feed"
        (initialState [] false) (candidateA 100 true)).db =
      [{ id := 1, is_read := 0, is_deleted := 0, is_important := 0, is_pdeleted := 0,
         feed := 7, title := "A", url := "https://s/x", author := "x", date_created := 100,
         contents := "new", enclosures := "", custom_id := some "", custom_hash := "",
         account_id := 1 }] :=
  ((updateMessages_insert_new sampleLibrary allSucceed 7 1 "https://s/feed"
      (initialState [] false) (candidateA 100 true) (by decide)).2.1 rfl).1

/-- C6: an update that is applied and executes keeps the number and order of
rows; in every row with the matched id (the matched row is one) it sets title,
is_read, is_important, url, author, date_created, contents and enclosures to
the candidate's values and keeps custom_id, custom_hash, feed, account_id, id,
is_deleted and is_pdeleted; every row with another id is unchanged. -/
theorem updateMessages_update_fields (lib : Library) (o : DbOracle) (feed acc : Int)
    (url : String) (s : LoopState) (m : Message) (row : MessageRow)
    (hfind : findExisting o feed acc s.index s.db (normalizeMessage lib url m) = some row)
    (hcond : updateCondition (normalizeMessage lib url m) row = true)
    (hok : o.update_ok s.index = true) :
    row ∈ s.db
    ∧ (processMessage lib o feed acc url s m).db.length = s.db.length
    ∧ ∀ (k : Nat) (r : MessageRow), s.db[k]? = some r →
        ∃ r2 : MessageRow, (processMessage lib o feed acc url s m).db[k]? = some r2 ∧
          (r.id = row.id →
            r2.title = m.m_title ∧ r2.is_read = boolToInt m.m_isRead ∧
            r2.is_important = boolToInt m.m_isImportant ∧
            r2.url = normalizeUrl lib url m.m_url ∧ r2.author = m.m_author ∧
            r2.date_created = m.m_created ∧ r2.contents = m.m_contents ∧
            r2.enclosures = lib.encodeEnclosuresToString m.m_enclosures ∧
            r2.custom_id = r.custom_id ∧ r2.custom_hash = r.custom_hash ∧
            r2.feed = r.feed ∧ r2.account_id = r.account_id ∧ r2.id = r.id ∧
            r2.is_deleted = r.is_deleted ∧ r2.is_pdeleted = r.is_pdeleted) ∧
          (r.id ≠ row.id → r2 = r) := by
  have hstep := processMessage_update lib o feed acc url s m row hfind hcond
  refine ⟨findExisting_mem hfind, ?_, ?_⟩
  · rw [hstep]; simp [hok, query_update]
  · rw [hstep]
    simp only [hok, if_true, query_update]
    intro k r hk
    by_cases hidr : r.id = row.id
    · exact ⟨updatedRow lib (normalizeMessage lib url m) r, by simp [hk, hidr],
        fun _ => ⟨rfl, rfl, rfl, rfl, rfl, rfl, rfl, rfl, rfl, rfl, rfl, rfl, rfl, rfl, rfl⟩,
        fun h => absurd hidr h⟩
    · exact ⟨r, by simp [hk, hidr], fun h => absurd h hidr, fun _ => rfl⟩

/-- Witness of C6: the update of `storedRow42` by `candidate42` rewrites is_read and
contents and keeps custom_id, feed and account_id. -/
theorem updateMessages_update_fields_witness :
    storedRow42 ∈ (initialState [storedRow42] false).db
    ∧ (updateMessages sampleLibrary allSucceed [storedRow42] [candidate42] 7 1
        "https://s/feed" false false).db =
      [{ storedRow42 with is_read := 1, contents := "new" }] :=
  ⟨(updateMessages_update_fields sampleLibrary allSucceed 7 1 "https://s/feed"
      (initialState [storedRow42] false) candidate42 storedRow42 (by decide) (by decide)
      rfl).1, by decide⟩

/-! ## The batch as a whole -/

/-- C7: for a non-empty batch whose transaction starts, the integer returned is
the number of positions of the batch whose insert executed plus the number of
positions for which an update executed and whose candidate has isRead false. -/
theorem updateMessages_returned_count (lib : Library) (o : DbOracle) (db : List MessageRow)
    (messages : List Message) (feed acc : Int) (url : String) (any ok : Bool)
    (hne : messages ≠ []) (htx : o.transaction_ok = true) :
    (updateMessages lib o db messages feed acc url any ok).returned =
      (List.range messages.length).countP
          (insertedAt (updateMessages lib o db messages feed acc url any ok).calls)
      + (List.range messages.length).countP
          (fun i => updatedAt (updateMessages lib o db messages feed acc url any ok).calls i
            && unreadAt messages i) := by
  obtain ⟨hret, _, extra, hcalls, hextra, _⟩ :=
    updateMessages_started lib o db messages feed acc url any ok hne htx
  have hinv := (loop_invariant lib o feed acc url any messages [] (initialState db any) rfl
    (by intro c hc j hj; simp [initialState] at hc; rw [hc] at hj; cases hj)
    (by simp [initialState]) (by simp [initialState, DbCall.isUpdate])).2.1
  rw [hret, hcalls, hinv]
  simp only [List.nil_append]
  congr 1
  · apply List.countP_congr
    intro i _
    simp [insertedAt, hitAt_append, hitAt_none _ extra i hextra]
  · apply List.countP_congr
    intro i _
    simp [updatedAt, hitAt_append, hitAt_none _ extra i hextra]

/-- Witness of C7: in `sampleBatch` the first candidate is updated with isRead false,
the second is updated with isRead true, the third is inserted and the fourth
is skipped; 2 is returned. -/
theorem updateMessages_returned_count_witness :
    (updateMessages sampleLibrary allSucceed [storedRow42, storedRowB] sampleBatch 7 1
        "https://s/feed" false false).returned =
      (List.range sampleBatch.length).countP
          (insertedAt (updateMessages sampleLibrary allSucceed [storedRow42, storedRowB]
            sampleBatch 7 1 "https://s/feed" false false).calls)
      + (List.range sampleBatch.length).countP
          (fun i => updatedAt (updateMessages sampleLibrary allSucceed
            [storedRow42, storedRowB] sampleBatch 7 1 "https://s/feed" false false).calls i
            && unreadAt sampleBatch i)
    ∧ (updateMessages sampleLibrary allSucceed [storedRow42, storedRowB] sampleBatch 7 1
        "https://s/feed" false false).returned = 2
    ∧ (List.range sampleBatch.length).map
        (insertedAt (updateMessages sampleLibrary allSucceed [storedRow42, storedRowB]
          sampleBatch 7 1 "https://s/feed" false false).calls) = [false, false, true, false]
    ∧ (List.range sampleBatch.length).map
        (updatedAt (updateMessages sampleLibrary allSucceed [storedRow42, storedRowB]
          sampleBatch 7 1 "https://s/feed" false false).calls) = [true, true, false, false] :=
  ⟨updateMessages_returned_count sampleLibrary allSucceed [storedRow42, storedRowB]
      sampleBatch 7 1 "https://s/feed" false false (by decide) rfl,
    by decide, by decide, by decide⟩

/-- C8 (code at the failing input): the batch holds one new message, which is
inserted; no update is issued, yet the flag the caller receives is `true`,
the value the caller's variable held before the call. -/
theorem updateMessages_any_message_changed_stale :
    (updateMessages sampleLibrary allSucceed [] [candidateNew] 7 1 "https://s/feed"
        true false).any_message_changed = true
    ∧ (updateMessages sampleLibrary allSucceed [] [candidateNew] 7 1 "https://s/feed"
        true false).calls =
      [.transaction true, .select_with_id 0 true, .insert 0 candidateNew true, .fixup true,
        .commit true]
    ∧ (updateMessages sampleLibrary allSucceed [] [candidateNew] 7 1 "https://s/feed"
        true false).calls.any DbCall.isUpdate = false
    ∧ (updateMessages sampleLibrary allSucceed [] [candidateNew] 7 1 "https://s/feed"
        false false).any_message_changed = false := by
  decide

/-- C9: on the empty batch `updateMessages` returns 0, sets any_message_changed
to false and ok to true whatever they held, issues no database call (so opens
no transaction) and leaves the table as it was. -/
theorem updateMessages_empty_batch (lib : Library) (o : DbOracle) (db : List MessageRow)
    (feed acc : Int) (url : String) (any ok : Bool) :
    updateMessages lib o db [] feed acc url any ok =
      { returned := 0, any_message_changed := false, ok := true, db := db, calls := [] } :=
  rfl

/-- C10 (code at the failing input): `db.transaction()` fails on a batch of
one message while the caller's ok variable holds `true`; the function rolls
back, issues no insert, update or fixup and leaves the table alone, but the ok
it reports is still `true`. -/
theorem updateMessages_transaction_failure_keeps_ok :
    updateMessages sampleLibrary transactionFails [storedRow42] [candidate42] 7 1
        "https://s/feed" false true =
      { returned := 0, any_message_changed := false, ok := true, db := [storedRow42],
        calls := [.transaction false, .rollback] } := by
  decide

/-! ## Commit, rollback and the fixup pass -/

/-- C11: for a non-empty batch whose transaction starts, the ok reported is
true if and only if the commit succeeds; when the commit fails the function
rolls back as its last call, the table equals the table before the call and ok
is false, whatever the caller's ok held. -/
theorem updateMessages_ok_iff_commit (lib : Library) (o : DbOracle) (db : List MessageRow)
    (messages : List Message) (feed acc : Int) (url : String) (any ok : Bool)
    (hne : messages ≠ []) (htx : o.transaction_ok = true) :
    ((updateMessages lib o db messages feed acc url any ok).ok = true ↔ o.commit_ok = true)
    ∧ (o.commit_ok = false →
        (updateMessages lib o db messages feed acc url any ok).ok = false
        ∧ (updateMessages lib o db messages feed acc url any ok).db = db
        ∧ DbCall.commit false ∈ (updateMessages lib o db messages feed acc url any ok).calls
        ∧ (updateMessages lib o db messages feed acc url any ok).calls.getLast? =
            some DbCall.rollback) := by
  have hemp : messages.isEmpty = false := by
    cases messages with
    | nil => exact absurd rfl hne
    | cons a t => rfl
  unfold updateMessages
  simp only [hemp, htx]
  cases o.commit_ok <;> simp

/-- Witness of C11: the insert of `candidateNew` executes, the commit fails; ok is
false although the caller's ok held true, and the table is the empty table
the call started with. -/
theorem updateMessages_ok_iff_commit_witness :
    (updateMessages sampleLibrary commitFails [] [candidateNew] 7 1 "https://s/feed"
        false true).ok = false
    ∧ (updateMessages sampleLibrary commitFails [] [candidateNew] 7 1 "https://s/feed"
        false true).db = []
    ∧ (updateMessages sampleLibrary allSucceed [] [candidateNew] 7 1 "https://s/feed"
        false false).ok = true :=
  ⟨((updateMessages_ok_iff_commit sampleLibrary commitFails [] [candidateNew] 7 1
      "https://s/feed" false true (by decide) rfl).2 rfl).1,
   ((updateMessages_ok_iff_commit sampleLibrary commitFails [] [candidateNew] 7 1
      "https://s/feed" false true (by decide) rfl).2 rfl).2.1,
   (updateMessages_ok_iff_commit sampleLibrary allSucceed [] [candidateNew] 7 1
      "https://s/feed" false false (by decide) rfl).1.2 rfl⟩

/-- Counterexample to C12: the insert of `candidateNew` executes and the commit
fails; the batch is rolled back (the table is empty again, ok is false), yet 1
is returned. -/
theorem updateMessages_rollback_returns_count :
    (updateMessages sampleLibrary commitFails [] [candidateNew] 7 1 "https://s/feed"
        false true).calls =
      [.transaction true, .select_with_id 0 true, .insert 0 candidateNew true, .fixup true,
        .commit false, .rollback]
    ∧ (updateMessages sampleLibrary commitFails [] [candidateNew] 7 1 "https://s/feed"
        false true).db = []
    ∧ (updateMessages sampleLibrary commitFails [] [candidateNew] 7 1 "https://s/feed"
        false true).ok = false
    ∧ (updateMessages sampleLibrary commitFails [] [candidateNew] 7 1 "https://s/feed"
        false true).returned = 1
    ∧ ¬ ((updateMessages sampleLibrary commitFails [] [candidateNew] 7 1 "https://s/feed"
        false true).returned = 0) := by
  decide

/-- C12 (amended): on a non-empty batch, when the transaction cannot be started
0 is returned; when the transaction starts and the commit fails, the table is
rolled back but the integer returned is the counter of the loop, the same
value that is returned when the commit succeeds: the number of positions whose
insert executed plus the number of positions whose update executed with isRead
false. -/
theorem updateMessages_rollback_count (lib : Library) (o : DbOracle) (db : List MessageRow)
    (messages : List Message) (feed acc : Int) (url : String) (any ok : Bool)
    (hne : messages ≠ []) :
    (o.transaction_ok = false →
        (updateMessages lib o db messages feed acc url any ok).returned = 0)
    ∧ (o.transaction_ok = true → o.commit_ok = false →
        (updateMessages lib o db messages feed acc url any ok).db = db
        ∧ (updateMessages lib o db messages feed acc url any ok).returned =
            (updateMessages lib { o with commit_ok := true } db messages feed acc url any
              ok).returned
        ∧ (updateMessages lib o db messages feed acc url any ok).returned =
            (List.range messages.length).countP
                (insertedAt (updateMessages lib o db messages feed acc url any ok).calls)
            + (List.range messages.length).countP
                (fun i => updatedAt (updateMessages lib o db messages feed acc url any ok).calls i
                  && unreadAt messages i)) := by
  have hemp : messages.isEmpty = false := by
    cases messages with
    | nil => exact absurd rfl hne
    | cons a t => rfl
  refine ⟨fun htx => ?_, fun htx hc => ⟨?_, ?_, ?_⟩⟩
  · rw [transaction_failure_outcome lib o db messages feed acc url any ok hne htx]
  · unfold updateMessages
    simp [hemp, htx, hc]
  · have h1 := (updateMessages_started lib o db messages feed acc url any ok hne htx).1
    have h2 := (updateMessages_started lib { o with commit_ok := true } db messages feed acc
      url any ok hne htx).1
    rw [h1, h2]
    rfl
  · obtain ⟨hret, _, extra, hcalls, hextra, _⟩ :=
      updateMessages_started lib o db messages feed acc url any ok hne htx
    have hinv := (loop_invariant lib o feed acc url any messages [] (initialState db any) rfl
      (by intro c hc j hj; simp [initialState] at hc; rw [hc] at hj; cases hj)
      (by simp [initialState]) (by simp [initialState, DbCall.isUpdate])).2.1
    rw [hret, hcalls, hinv]
    simp only [List.nil_append]
    congr 1
    · apply List.countP_congr
      intro i _
      simp [insertedAt, hitAt_append, hitAt_none _ extra i hextra]
    · apply List.countP_congr
      intro i _
      simp [updatedAt, hitAt_append, hitAt_none _ extra i hextra]

/-- Witness of C12 (amended): with a failing transaction start 0 is returned; with a
failing commit the insert that was executed is still counted. -/
theorem updateMessages_rollback_count_witness :
    (updateMessages sampleLibrary transactionFails [] [candidateNew] 7 1 "https://s/feed"
        false true).returned = 0
    ∧ (updateMessages sampleLibrary commitFails [] [candidateNew] 7 1 "https://s/feed"
        false true).returned =
      (updateMessages sampleLibrary { commitFails with commit_ok := true } [] [candidateNew] 7 1
        "https://s/feed" false true).returned
    ∧ (updateMessages sampleLibrary commitFails [] [candidateNew] 7 1 "https://s/feed"
        false true).returned = 1 :=
  ⟨(updateMessages_rollback_count sampleLibrary transactionFails [] [candidateNew] 7 1
      "https://s/feed" false true (by decide)).1 rfl,
   ((updateMessages_rollback_count sampleLibrary commitFails [] [candidateNew] 7 1
      "https://s/feed" false true (by decide)).2 rfl rfl).2.1,
   by decide⟩

/-- C13: after a non-empty batch whose transaction, fixup statement and commit
succeed, the table has the rows left by the per-message pass, in the same
order; every row whose custom_id was NULL or empty at the end of that pass has
custom_id equal to the decimal text of its own primary key and is otherwise
unchanged, and every row whose custom_id was not empty is unchanged. -/
theorem updateMessages_fixup_assigns_keys (lib : Library) (o : DbOracle)
    (db : List MessageRow) (messages : List Message) (feed acc : Int) (url : String)
    (any ok : Bool) (hne : messages ≠ []) (htx : o.transaction_ok = true)
    (hfix : o.fixup_ok = true) (hcommit : o.commit_ok = true) :
    (updateMessages lib o db messages feed acc url any ok).db.length =
        (messages.foldl (processMessage lib o feed acc url) (initialState db any)).db.length
    ∧ ∀ (k : Nat) (r : MessageRow),
        (messages.foldl (processMessage lib o feed acc url) (initialState db any)).db[k]?
          = some r →
        ∃ r2 : MessageRow,
          (updateMessages lib o db messages feed acc url any ok).db[k]? = some r2 ∧
          ((r.custom_id = none ∨ r.custom_id = some "") →
            r2 = { r with custom_id := some (toString r.id) }
            ∧ r2.custom_id = some (Nat.repr r2.id)) ∧
          (¬ (r.custom_id = none ∨ r.custom_id = some "") → r2 = r) := by
  rw [updateMessages_committed_db lib o db messages feed acc url any ok hne htx hfix hcommit]
  refine ⟨by simp [fixupCustomIds], ?_⟩
  intro k r hk
  have hl : lacksCustomId r = true ↔ (r.custom_id = none ∨ r.custom_id = some "") := by
    unfold lacksCustomId
    cases hc : r.custom_id with
    | none => simp
    | some c => simp [isEmpty_iff]
  by_cases hlack : lacksCustomId r = true
  · refine ⟨{ r with custom_id := some (toString r.id) }, ?_, fun _ => ⟨rfl, rfl⟩,
      fun h => absurd (hl.1 hlack) h⟩
    simp [fixupCustomIds, hk, hlack]
  · refine ⟨r, ?_, fun h => absurd (hl.2 h) hlack, fun _ => rfl⟩
    simp [fixupCustomIds, hk, hlack]

/-- Witness of C13: the candidate without customId is inserted as row 4 with an
empty custom_id and ends with custom_id 4; the stored row with a NULL
custom_id ends with its key 3, and the row with custom_id 42 keeps it. -/
theorem updateMessages_fixup_assigns_keys_witness :
    (updateMessages sampleLibrary allSucceed [storedRow42, storedRowNull]
        [candidateA 100 true] 7 1 "https://s/feed" false false).db.length =
      ([candidateA 100 true].foldl (processMessage sampleLibrary allSucceed 7 1 "https://s/feed")
        (initialState [storedRow42, storedRowNull] false)).db.length
    ∧ ([candidateA 100 true].foldl (processMessage sampleLibrary allSucceed 7 1 "https://s/feed")
        (initialState [storedRow42, storedRowNull] false)).db.map
          (fun r => (r.id, r.custom_id)) = [(1, some "42"), (3, none), (4, some "")]
    ∧ (updateMessages sampleLibrary allSucceed [storedRow42, storedRowNull]
        [candidateA 100 true] 7 1 "https://s/feed" false false).db.map
          (fun r => (r.id, r.custom_id)) = [(1, some "42"), (3, some "3"), (4, some "4")] :=
  ⟨(updateMessages_fixup_assigns_keys sampleLibrary allSucceed [storedRow42, storedRowNull]
      [candidateA 100 true] 7 1 "https://s/feed" false false (by decide) rfl rfl rfl).1,
   by decide, by decide⟩

/-- Counterexample to C14: the empty batch applied to a table with a row whose
custom_id is NULL reports ok = true, makes no database call (no fixup), and
the row still has no custom_id afterwards. -/
theorem updateMessages_empty_batch_no_fixup :
    (updateMessages sampleLibrary allSucceed [storedRowNull] [] 7 1 "https://s/feed"
        false false).ok = true
    ∧ (updateMessages sampleLibrary allSucceed [storedRowNull] [] 7 1 "https://s/feed"
        false false).calls = []
    ∧ (updateMessages sampleLibrary allSucceed [storedRowNull] [] 7 1 "https://s/feed"
        false false).db.map (fun r => (r.id, r.custom_id)) = [(3, none)]
    ∧ ¬ (∀ r ∈ (updateMessages sampleLibrary allSucceed [storedRowNull] [] 7 1
        "https://s/feed" false false).db, lacksCustomId r = false) := by
  decide

/-- C14 (amended): after a call of `updateMessages` with a non-empty batch whose
transaction, fixup statement and commit succeed (ok = true is reported), no
row of the table, of whatever feed or account, has a NULL or empty
custom_id. -/
theorem updateMessages_no_missing_custom_id (lib : Library) (o : DbOracle)
    (db : List MessageRow) (messages : List Message) (feed acc : Int) (url : String)
    (any ok : Bool) (hne : messages ≠ []) (htx : o.transaction_ok = true)
    (hfix : o.fixup_ok = true) (hcommit : o.commit_ok = true) :
    (updateMessages lib o db messages feed acc url any ok).ok = true
    ∧ ∀ r ∈ (updateMessages lib o db messages feed acc url any ok).db,
        lacksCustomId r = false ∧ r.custom_id ≠ none ∧ r.custom_id ≠ some "" := by
  refine ⟨?_, ?_⟩
  · have hemp : messages.isEmpty = false := by
      cases messages with
      | nil => exact absurd rfl hne
      | cons a t => rfl
    simp [updateMessages, hemp, htx, hcommit]
  · rw [updateMessages_committed_db lib o db messages feed acc url any ok hne htx hfix hcommit]
    intro r hr
    have h := fixupCustomIds_complete _ r hr
    refine ⟨h, ?_, ?_⟩
    · intro hn; simp [lacksCustomId, hn] at h
    · intro hn; simp [lacksCustomId, hn, isEmpty] at h

/-- Witness of C14 (amended): a non-empty batch heals the row with the NULL
custom_id. -/
theorem updateMessages_no_missing_custom_id_witness :
    (∀ r ∈ (updateMessages sampleLibrary allSucceed [storedRowNull] [candidateA 100 true] 7 1
        "https://s/feed" false false).db,
        lacksCustomId r = false ∧ r.custom_id ≠ none ∧ r.custom_id ≠ some "")
    ∧ (updateMessages sampleLibrary allSucceed [storedRowNull] [candidateA 100 true] 7 1
        "https://s/feed" false false).db.map (fun r => (r.id, r.custom_id)) =
      [(3, some "3"), (4, some "4")] :=
  ⟨(updateMessages_no_missing_custom_id sampleLibrary allSucceed [storedRowNull]
      [candidateA 100 true] 7 1 "https://s/feed" false false (by decide) rfl rfl rfl).2,
   by decide⟩

/-! ## Identity resolution -/

/-- C16: for a candidate with a non-empty customId whose lookup executes, a
stored row is read if and only if some stored row has that custom_id and the
account_id, and the row read has them; the lookup is the same for every feed
id and for every candidate with the same customId (whatever title, url and
author), and commutes with every change of the stored rows that keeps
custom_id and account_id; when no stored row has the customId in the account,
the candidate is inserted, whatever feed, title, url and author the stored
rows have. -/
theorem updateMessages_customId_identity (lib : Library) (o : DbOracle) (feed acc : Int)
    (url : String) (s : LoopState) (m : Message)
    (hid : m.m_customId ≠ "") (hsel : o.select_ok s.index = true) :
    (∀ row, findExisting o feed acc s.index s.db (normalizeMessage lib url m) = some row →
        row ∈ s.db ∧ row.custom_id = some m.m_customId ∧ row.account_id = acc)
    ∧ ((∃ row, findExisting o feed acc s.index s.db (normalizeMessage lib url m) = some row) ↔
        ∃ r ∈ s.db, r.custom_id = some m.m_customId ∧ r.account_id = acc)
    ∧ (∀ (feed2 : Int) (m2 : Message), m2.m_customId = m.m_customId →
        findExisting o feed2 acc s.index s.db m2 =
          findExisting o feed acc s.index s.db (normalizeMessage lib url m))
    ∧ (∀ g : MessageRow → MessageRow,
        (∀ r, (g r).custom_id = r.custom_id ∧ (g r).account_id = r.account_id) →
        findExisting o feed acc s.index (s.db.map g) (normalizeMessage lib url m) =
          (findExisting o feed acc s.index s.db (normalizeMessage lib url m)).map g)
    ∧ ((∀ r ∈ s.db, ¬ (r.custom_id = some m.m_customId ∧ r.account_id = acc)) →
        callsSince s (processMessage lib o feed acc url s m) =
          [.select_with_id s.index true,
            .insert s.index (normalizeMessage lib url m) (o.insert_ok s.index)]
        ∧ (o.insert_ok s.index = true →
            (processMessage lib o feed acc url s m).db =
              s.db ++ [insertedRow lib s.db feed acc (normalizeMessage lib url m)])) := by
  have hne : isEmpty (normalizeMessage lib url m).m_customId = false := isEmpty_eq_false hid
  have hfe : ∀ db, findExisting o feed acc s.index db (normalizeMessage lib url m) =
      query_select_with_id db m.m_customId acc := fun db =>
    findExisting_customId o feed acc s.index db _ hne hsel
  refine ⟨?_, ?_, ?_, ?_, ?_⟩
  · intro row hrow
    rw [hfe] at hrow
    have hp := List.find?_some hrow
    simp only [Bool.and_eq_true, beq_iff_eq] at hp
    exact ⟨List.mem_of_find?_eq_some hrow, hp.1, hp.2⟩
  · rw [hfe]
    constructor
    · rintro ⟨row, hrow⟩
      have hp := List.find?_some hrow
      simp only [Bool.and_eq_true, beq_iff_eq] at hp
      exact ⟨row, List.mem_of_find?_eq_some hrow, hp.1, hp.2⟩
    · rintro ⟨r, hr, h1, h2⟩
      cases hq : query_select_with_id s.db m.m_customId acc with
      | some row => exact ⟨row, rfl⟩
      | none =>
        have := (List.find?_eq_none.1 hq) r hr
        simp [h1, h2] at this
  · intro feed2 m2 h2
    rw [hfe, findExisting_customId o feed2 acc s.index s.db m2 (by rw [h2]; exact hne) hsel, h2]
  · intro g hg
    rw [hfe, hfe]
    unfold query_select_with_id
    rw [List.find?_map]
    congr 2
    funext r
    simp [Function.comp, (hg r).1, (hg r).2]
  · intro hnone
    have hfind : findExisting o feed acc s.index s.db (normalizeMessage lib url m) = none := by
      rw [hfe]
      apply List.find?_eq_none.2
      intro r hr
      have := hnone r hr
      simpa using this
    have hstep := processMessage_insert lib o feed acc url s m hfind
    refine ⟨?_, fun hok => by rw [hstep]; simp [hok, query_insert]⟩
    rw [callsSince_append s _ _ (congrArg LoopState.calls hstep)]
    simp [selectCall, hne, hsel]

/-- Witness of C16: `storedRowA` has the feed, title, URL and author of `candidateA77`
but not its customId 77; the candidate is inserted as a second row. -/
theorem updateMessages_customId_identity_witness :
    (processMessage sampleLibrary allSucceed 7 1 "https://s/feed"
        (initialState [storedRowA] false) candidateA77).db =
      (initialState [storedRowA] false).db ++
        [insertedRow sampleLibrary (initialState [storedRowA] false).db 7 1
          (normalizeMessage sampleLibrary "https://s/feed" candidateA77)]
    ∧ (updateMessages sampleLibrary allSucceed [storedRowA] [candidateA77] 7 1
        "https://s/feed" false false).db.map
        (fun r => (r.id, r.title, r.url, r.author, r.custom_id)) =
      [(1, "A", "https://s/x", "x", some "1"), (2, "A", "https://s/x", "x", some "77")] :=
  ⟨((updateMessages_customId_identity sampleLibrary allSucceed 7 1 "https://s/feed"
      (initialState [storedRowA] false) candidateA77 (by decide) rfl).2.2.2.2
      (by decide)).2 rfl, by decide⟩

/-- C18: for a candidate whose url starts with two slashes, the url the loop
body works with is the text after the two slashes prefixed with the http
scheme, for every library and every feed base URL; processing the candidate is
the same as processing, under any base URL, the candidate with its url
rewritten so; every row the iteration inserts or changes carries the rewritten
url; and a url that does not start with a slash is used unchanged. -/
theorem updateMessages_scheme_relative_url (lib : Library) (o : DbOracle) (feed acc : Int)
    (url : String) (s : LoopState) (m : Message)
    (h : startsWith m.m_url "//" = true) :
    (∀ (lib2 : Library) (url2 : String),
        normalizeUrl lib2 url2 m.m_url = "http://" ++ mid m.m_url 2)
    ∧ (∀ url2 : String,
        processMessage lib o feed acc url2 s { m with m_url := "http://" ++ mid m.m_url 2 } =
          processMessage lib o feed acc url s m)
    ∧ (∀ row ∈ (processMessage lib o feed acc url s m).db, row ∉ s.db →
        row.url = "http://" ++ mid m.m_url 2)
    ∧ (∀ u : String, startsWith u "/" = false → normalizeUrl lib url u = u) := by
  have hnorm : ∀ (lib2 : Library) (url2 : String),
      normalizeUrl lib2 url2 m.m_url = "http://" ++ mid m.m_url 2 := by
    intro lib2 url2
    simp [normalizeUrl, h, URI_SCHEME_HTTP]
  have hplain : ∀ (lib2 : Library) (url2 u : String), startsWith u "/" = false →
      normalizeUrl lib2 url2 u = u := by
    intro lib2 url2 u hu
    have hu2 : startsWith u "//" = false := by
      cases h2 : startsWith u "//"
      · rfl
      · rw [startsWith_slash_of_slashes u h2] at hu
        cases hu
    simp [normalizeUrl, hu, hu2]
  refine ⟨hnorm, ?_, ?_, hplain lib url⟩
  · intro url2
    apply processMessage_congr
    have hs : startsWith ("http://" ++ mid m.m_url 2) "/" = false :=
      startsWith_http (mid m.m_url 2) "/" rfl
    simp only [normalizeMessage, hplain lib url2 _ hs, hnorm lib url]
  · intro row hrow hnew
    rw [processMessage_new_row_url lib o feed acc url s m row hrow hnew, hnorm]

/-- Witness of C18: with the base URL `https://site.test/feed` the url
`//example.com/a` becomes `http://example.com/a`, which is what is stored. -/
theorem updateMessages_scheme_relative_url_witness :
    normalizeUrl sampleLibrary "https://site.test/feed" candidateSlashes.m_url =
      "http://" ++ mid candidateSlashes.m_url 2
    ∧ normalizeUrl sampleLibrary "https://site.test/feed" "//example.com/a" =
      "http://example.com/a"
    ∧ (updateMessages sampleLibrary allSucceed [] [candidateSlashes] 7 1
        "https://site.test/feed" false false).db.map MessageRow.url = ["http://example.com/a"]
    ∧ normalizeUrl sampleLibrary "https://site.test/feed" "https://s/x" = "https://s/x" :=
  ⟨(updateMessages_scheme_relative_url sampleLibrary allSucceed 7 1 "https://site.test/feed"
      (initialState [] false) candidateSlashes (by decide)).1 sampleLibrary
      "https://site.test/feed", by decide, by decide, by decide⟩

/-- C19: for a candidate whose url starts with a single slash, the url the loop
body works with is `QUrl(url).toString(RemoveUserInfo | RemovePath |
RemoveQuery | RemoveFilename | StripTrailingSlash)` of the feed base URL
followed by the candidate url; the identity lookup by feed, title, url and
author is made with that url, and every row the iteration inserts or changes
carries it. -/
theorem updateMessages_host_relative_url (lib : Library) (o : DbOracle) (feed acc : Int)
    (url : String) (s : LoopState) (m : Message)
    (h1 : startsWith m.m_url "/" = true) (h2 : startsWith m.m_url "//" = false) :
    normalizeUrl lib url m.m_url = lib.urlToString url ++ m.m_url
    ∧ (m.m_customId = "" → o.select_ok s.index = true →
        findExisting o feed acc s.index s.db (normalizeMessage lib url m) =
          query_select_with_url s.db feed m.m_title (lib.urlToString url ++ m.m_url)
            m.m_author acc)
    ∧ (∀ row ∈ (processMessage lib o feed acc url s m).db, row ∉ s.db →
        row.url = lib.urlToString url ++ m.m_url)
    ∧ (findExisting o feed acc s.index s.db (normalizeMessage lib url m) = none →
        o.insert_ok s.index = true →
        (processMessage lib o feed acc url s m).db.map MessageRow.url =
          s.db.map MessageRow.url ++ [lib.urlToString url ++ m.m_url]
        ∧ (processMessage lib o feed acc url s m).updated_messages = s.updated_messages + 1) := by
  have hnorm : normalizeUrl lib url m.m_url = lib.urlToString url ++ m.m_url := by
    simp [normalizeUrl, h1, h2]
  refine ⟨hnorm, ?_, ?_, ?_⟩
  · intro hid hsel
    rw [findExisting_url o feed acc s.index s.db (normalizeMessage lib url m)
      ((isEmpty_iff _).2 hid) hsel]
    simp only [normalizeMessage, hnorm]
  · intro row hrow hnew
    rw [processMessage_new_row_url lib o feed acc url s m row hrow hnew, hnorm]
  · intro hfind hok
    rw [processMessage_insert lib o feed acc url s m hfind]
    simp [hok, query_insert, insertedRow, normalizeMessage, hnorm]

/-- Witness of C19: the batch of the one candidate with title A, url `/x`, no customId
and isRead false, with base URL `https://s/feed` on an empty table: one
insert, 1 returned, url `https://s/x` stored. -/
theorem updateMessages_host_relative_url_witness :
    normalizeUrl originLibrary "https://s/feed" candidateRelative.m_url =
      originLibrary.urlToString "https://s/feed" ++ candidateRelative.m_url
    ∧ originLibrary.urlToString "https://s/feed" = "https://s"
    ∧ (updateMessages originLibrary allSucceed [] [candidateRelative] 7 1 "https://s/feed"
        false false).calls.countP DbCall.isInsert = 1
    ∧ (updateMessages originLibrary allSucceed [] [candidateRelative] 7 1 "https://s/feed"
        false false).returned = 1
    ∧ (updateMessages originLibrary allSucceed [] [candidateRelative] 7 1 "https://s/feed"
        false false).db.map (fun r => (r.title, r.url, r.is_read)) = [("A", "https://s/x", 0)]
    ∧ (updateMessages originLibrary allSucceed [] [candidateRelative] 7 1 "https://s/feed"
        false false).calls.any DbCall.isUpdate = false :=
  ⟨(updateMessages_host_relative_url originLibrary allSucceed 7 1 "https://s/feed"
      (initialState [] false) candidateRelative (by decide) (by decide)).1,
   by decide, by decide, by decide, by decide, by decide⟩

/-! ## Failures of single statements -/

/-- C20 (code at the failing input): the table holds the message with custom
ID 42 and the batch holds the candidate with that custom ID; its identity
lookup fails to execute, every other statement succeeds.  The candidate is
inserted as a second row with custom ID 42 and 1 is returned. -/
theorem updateMessages_failed_lookup_inserts :
    (updateMessages sampleLibrary lookupFails [storedRow42] [candidate42] 7 1 "https://s/feed"
        false false).calls =
      [.transaction true, .select_with_id 0 false, .insert 0 candidate42 true, .fixup true,
        .commit true]
    ∧ (updateMessages sampleLibrary lookupFails [storedRow42] [candidate42] 7 1
        "https://s/feed" false false).db.map (fun r => (r.id, r.custom_id)) =
      [(1, some "42"), (2, some "42")]
    ∧ (updateMessages sampleLibrary lookupFails [storedRow42] [candidate42] 7 1
        "https://s/feed" false false).returned = 1
    ∧ (updateMessages sampleLibrary lookupFails [storedRow42] [] 7 1
        "https://s/feed" false false).db = [storedRow42] := by
  decide

/-! ## Idempotence -/

theorem fillCounts_find_aux (incl : Bool) (g h : Int → Int) (f : Int) (keys : List Int) :
    ∀ m0 : QMap,
      ((keys.map (fun k => (k, g k, h k))).foldl (fun counts row =>
        if incl then counts.insert row.1 (row.2.1, row.2.2)
        else counts.insert row.1 (row.2.1, 0)) m0).find f =
      if f ∈ keys then some (g f, if incl then h f else 0) else m0.find f := by
  induction keys with
  | nil => intro m0; simp
  | cons k t ih =>
    intro m0
    simp only [List.map_cons, List.foldl_cons]
    rw [ih]
    by_cases hft : f ∈ t
    · simp [hft]
    · by_cases hfk : f = k
      · subst hfk
        cases incl <;> simp [hft, QMap.insert]
      · cases incl <;> simp [hft, hfk, QMap.insert]

/-- Lookup in the map filled from one result row per key. -/
theorem fillCounts_find (incl : Bool) (g h : Int → Int) (f : Int) (keys : List Int) :
    (fillCounts incl (keys.map (fun k => (k, g k, h k)))).find f =
      if f ∈ keys then some (g f, if incl then h f else 0) else none := by
  unfold fillCounts
  rw [fillCounts_find_aux]
  rfl

/-- On rows whose `is_read` is 0 or 1, `sum((is_read + 1) % 2)` is the number
of rows with `is_read = 0`. -/
theorem sum_unread (l : List MessageRow) (h : ∀ r ∈ l, r.is_read = 0 ∨ r.is_read = 1) :
    (l.map (fun r => sqlMod (r.is_read + 1) 2)).sum =
      ((l.countP (fun r => r.is_read == 0) : Nat) : Int) := by
  induction l with
  | nil => rfl
  | cons a t ih =>
    have ht := ih (fun r hr => h r (List.mem_cons_of_mem a hr))
    have h1 : sqlMod (0 + 1) 2 = 1 := by decide
    have h2 : sqlMod (1 + 1) 2 = 0 := by decide
    rcases h a (List.mem_cons_self a t) with ha | ha
    · simp only [List.map_cons, List.sum_cons, ht, List.countP_cons, ha, h1]
      simp
      omega
    · simp only [List.map_cons, List.sum_cons, ht, List.countP_cons, ha, h2]
      simp

/-- Lookup in the map of counts built from the rows that passed a `WHERE`
clause. -/
theorem groupByFeed_find (incl : Bool) (rows : List MessageRow) (f : Int) :
    (fillCounts incl (groupByFeed rows)).find f =
      if f ∈ rows.map MessageRow.feed then
        some (((rows.filter (fun r => r.feed == f)).map (fun r => sqlMod (r.is_read + 1) 2)).sum,
          if incl then ((rows.filter (fun r => r.feed == f)).length : Int) else 0)
      else none := by
  unfold groupByFeed
  rw [fillCounts_find incl
    (fun f => ((rows.filter (fun r => r.feed == f)).map (fun r => sqlMod (r.is_read + 1) 2)).sum)
    (fun f => ((rows.filter (fun r => r.feed == f)).length : Int))]
  simp only [List.mem_dedup]

/-- C21: `getMessageCountsForFeed`, when its query executes, returns with total
counts the number of stored messages with feed = feed_custom_id, account_id =
account_id, is_deleted = 0 and is_pdeleted = 0, and without total counts the
number of those that also have is_read = 0, which never exceeds the total; ok
is true.  When the query fails it returns 0 with ok = false. -/
theorem getMessageCountsForFeed_counts (db : List MessageRow) (feed acc : Int) :
    getMessageCountsForFeed true db feed acc true =
        (((db.countP (fun r => r.feed == feed && r.account_id == acc && r.is_deleted == 0
          && r.is_pdeleted == 0) : Nat) : Int), true)
    ∧ getMessageCountsForFeed true db feed acc false =
        (((db.countP (fun r => r.feed == feed && r.account_id == acc && r.is_deleted == 0
          && r.is_pdeleted == 0 && r.is_read == 0) : Nat) : Int), true)
    ∧ (getMessageCountsForFeed true db feed acc false).1 ≤
        (getMessageCountsForFeed true db feed acc true).1
    ∧ (∀ incl : Bool, getMessageCountsForFeed false db feed acc incl = (0, false)) := by
  refine ⟨?_, ?_, ?_, ?_⟩
  · simp only [getMessageCountsForFeed, if_true]
    congr 2
    apply List.countP_congr
    intro r _
    cases r.feed == feed <;> cases r.account_id == acc <;> cases r.is_deleted == 0 <;>
      cases r.is_pdeleted == 0 <;> simp
  · simp only [getMessageCountsForFeed, if_true, Bool.false_eq_true, if_false]
    congr 2
    apply List.countP_congr
    intro r _
    cases r.feed == feed <;> cases r.account_id == acc <;> cases r.is_deleted == 0 <;>
      cases r.is_pdeleted == 0 <;> cases r.is_read == 0 <;> simp
  · simp only [getMessageCountsForFeed, if_true, Bool.false_eq_true, if_false]
    apply Int.ofNat_le.2
    apply List.countP_mono_left
    intro r _ hr
    simp only [Bool.and_eq_true] at hr ⊢
    exact ⟨⟨⟨hr.1.1.1.1, hr.1.1.1.2⟩, hr.1.1.2⟩, hr.2⟩
  · intro incl
    simp [getMessageCountsForFeed]

/-- C22: `getMessageCountsForAccount` with total counts, its query executing,
on a table whose is_read values are 0 or 1: a feed id is a key of the map if
and only if some message with that feed has is_deleted = 0, is_pdeleted = 0
and the account_id, and then its value is the pair of the number of those
messages with is_read = 0 and the number of those messages; the map is the
one computed from the active messages of the account alone. -/
theorem getMessageCountsForAccount_counts (db : List MessageRow) (acc : Int) (f : Int)
    (hread : ∀ r ∈ db, r.is_read = 0 ∨ r.is_read = 1) :
    ((getMessageCountsForAccount true db acc true).1.find f ≠ none ↔
        ∃ r ∈ db, r.feed = f ∧ r.is_deleted = 0 ∧ r.is_pdeleted = 0 ∧ r.account_id = acc)
    ∧ ((∃ r ∈ db, r.feed = f ∧ r.is_deleted = 0 ∧ r.is_pdeleted = 0 ∧ r.account_id = acc) →
        (getMessageCountsForAccount true db acc true).1.find f =
          some (((db.countP (fun r => r.feed == f && r.is_deleted == 0 && r.is_pdeleted == 0
                  && r.account_id == acc && r.is_read == 0) : Nat) : Int),
                ((db.countP (fun r => r.feed == f && r.is_deleted == 0 && r.is_pdeleted == 0
                  && r.account_id == acc) : Nat) : Int)))
    ∧ (getMessageCountsForAccount true db acc true).1.find f =
        (getMessageCountsForAccount true
          (db.filter (fun r => r.is_deleted == 0 && r.is_pdeleted == 0 && r.account_id == acc))
          acc true).1.find f
    ∧ (getMessageCountsForAccount true db acc true).2 = true := by
  have hkey : f ∈ (db.filter (isActiveIn acc)).map MessageRow.feed ↔
      ∃ r ∈ db, r.feed = f ∧ r.is_deleted = 0 ∧ r.is_pdeleted = 0 ∧ r.account_id = acc := by
    simp only [List.mem_map, List.mem_filter, isActiveIn, Bool.and_eq_true, beq_iff_eq]
    constructor
    · rintro ⟨r, ⟨hr, ⟨h1, h2⟩, h3⟩, hf⟩
      exact ⟨r, hr, hf, h1, h2, h3⟩
    · rintro ⟨r, hr, hf, h1, h2, h3⟩
      exact ⟨r, ⟨hr, ⟨h1, h2⟩, h3⟩, hf⟩
  have hfind := groupByFeed_find true (db.filter (isActiveIn acc)) f
  refine ⟨?_, ?_, ?_, rfl⟩
  · simp only [getMessageCountsForAccount, if_true]
    rw [hfind, ← hkey]
    by_cases h : f ∈ (db.filter (isActiveIn acc)).map MessageRow.feed <;> simp [h]
  · intro hex
    simp only [getMessageCountsForAccount, if_true]
    rw [hfind, if_pos (hkey.2 hex)]
    have hsum := sum_unread ((db.filter (isActiveIn acc)).filter (fun r => r.feed == f))
      (fun r hr => hread r (List.mem_of_mem_filter (List.mem_of_mem_filter hr)))
    rw [hsum]
    simp only [if_true, List.countP_filter, List.filter_filter, List.countP_eq_length_filter]
    congr 3
    · congr 1
      apply List.filter_congr
      intro r _
      simp only [isActiveIn]
      cases r.feed == f <;> cases r.is_deleted == 0 <;> cases r.is_pdeleted == 0 <;>
        cases r.account_id == acc <;> cases r.is_read == 0 <;> rfl
    · congr 1
      apply List.filter_congr
      intro r _
      simp only [isActiveIn]
      cases r.feed == f <;> cases r.is_deleted == 0 <;> cases r.is_pdeleted == 0 <;>
        cases r.account_id == acc <;> rfl
  · have hf : (db.filter (fun r => r.is_deleted == 0 && r.is_pdeleted == 0
        && r.account_id == acc)).filter (isActiveIn acc) = db.filter (isActiveIn acc) := by
      rw [List.filter_filter]
      apply List.filter_congr
      intro r _
      simp only [isActiveIn]
      cases r.is_deleted == 0 <;> cases r.is_pdeleted == 0 <;> cases r.account_id == acc <;> rfl
    simp only [getMessageCountsForAccount, if_true, hf]

/-- Witness of C22: in `sampleTable` account 1 has two active messages in feed 7, one
of them unread, and one read active message in feed 8; the messages in the
bin, the purged one and the one of account 2 make no entry. -/
theorem getMessageCountsForAccount_counts_witness :
    ((getMessageCountsForAccount true sampleTable 1 true).1.find 7 ≠ none ↔
        ∃ r ∈ sampleTable, r.feed = 7 ∧ r.is_deleted = 0 ∧ r.is_pdeleted = 0 ∧ r.account_id = 1)
    ∧ (getMessageCountsForAccount true sampleTable 1 true).1.find 7 = some (1, 2)
    ∧ (getMessageCountsForAccount true sampleTable 1 true).1.find 8 = some (0, 1)
    ∧ (getMessageCountsForAccount true sampleTable 1 true).1.find 9 = none
    ∧ (getMessageCountsForAccount true sampleTable 2 true).1.find 7 = some (1, 1) :=
  ⟨(getMessageCountsForAccount_counts sampleTable 1 7 (by decide)).1,
   by decide, by decide, by decide, by decide⟩

theorem mem_active_feeds (db : List MessageRow) (acc f : Int) :
    f ∈ (db.filter (isActiveIn acc)).map MessageRow.feed ↔
      ∃ r ∈ db, r.feed = f ∧ r.is_deleted = 0 ∧ r.is_pdeleted = 0 ∧ r.account_id = acc := by
  simp only [List.mem_map, List.mem_filter, isActiveIn, Bool.and_eq_true, beq_iff_eq]
  constructor
  · rintro ⟨r, ⟨hr, ⟨h1, h2⟩, h3⟩, hf⟩
    exact ⟨r, hr, hf, h1, h2, h3⟩
  · rintro ⟨r, hr, hf, h1, h2, h3⟩
    exact ⟨r, ⟨hr, ⟨h1, h2⟩, h3⟩, hf⟩

/-- The value the map of an account holds for a feed with an active message,
on a table whose is_read values are 0 or 1. -/
theorem account_counts_value (db : List MessageRow) (acc f : Int)
    (hread : ∀ r ∈ db, r.is_read = 0 ∨ r.is_read = 1)
    (hkey : f ∈ (db.filter (isActiveIn acc)).map MessageRow.feed) :
    (getMessageCountsForAccount true db acc true).1.find f =
      some (((db.countP (fun r => r.feed == f && r.is_deleted == 0 && r.is_pdeleted == 0
              && r.account_id == acc && r.is_read == 0) : Nat) : Int),
            ((db.countP (fun r => r.feed == f && r.is_deleted == 0 && r.is_pdeleted == 0
              && r.account_id == acc) : Nat) : Int)) := by
  simp only [getMessageCountsForAccount, if_true]
  rw [groupByFeed_find true (db.filter (isActiveIn acc)) f, if_pos hkey]
  have hsum := sum_unread ((db.filter (isActiveIn acc)).filter (fun r => r.feed == f))
    (fun r hr => hread r (List.mem_of_mem_filter (List.mem_of_mem_filter hr)))
  rw [hsum]
  simp only [if_true, List.countP_filter, List.filter_filter, List.countP_eq_length_filter]
  congr 3
  · congr 1
    apply List.filter_congr
    intro r _
    simp only [isActiveIn]
    cases r.feed == f <;> cases r.is_deleted == 0 <;> cases r.is_pdeleted == 0 <;>
      cases r.account_id == acc <;> cases r.is_read == 0 <;> rfl
  · congr 1
    apply List.filter_congr
    intro r _
    simp only [isActiveIn]
    cases r.feed == f <;> cases r.is_deleted == 0 <;> cases r.is_pdeleted == 0 <;>
      cases r.account_id == acc <;> rfl

/-- The map of a category is the map of the account cut down to the feeds of
the category. -/
theorem category_find (db : List MessageRow) (feeds : List FeedRow) (cat acc f : Int)
    (incl : Bool) :
    (getMessageCountsForCategory true db feeds cat acc incl).1.find f =
      if feedInCategory feeds cat acc f then
        (getMessageCountsForAccount true db acc incl).1.find f
      else none := by
  simp only [getMessageCountsForCategory, getMessageCountsForAccount, if_true]
  rw [groupByFeed_find, groupByFeed_find]
  have hsplit : db.filter (fun r => feedInCategory feeds cat acc r.feed && isActiveIn acc r) =
      (db.filter (isActiveIn acc)).filter (fun r => feedInCategory feeds cat acc r.feed) := by
    rw [List.filter_filter]
  rw [hsplit]
  by_cases hcat : feedInCategory feeds cat acc f = true
  · have hrows : ((db.filter (isActiveIn acc)).filter
        (fun r => feedInCategory feeds cat acc r.feed)).filter (fun r => r.feed == f) =
        (db.filter (isActiveIn acc)).filter (fun r => r.feed == f) := by
      rw [List.filter_filter]
      apply List.filter_congr
      intro r _
      by_cases hrf : r.feed = f
      · simp [hrf, hcat]
      · simp [hrf]
    have hmem : f ∈ ((db.filter (isActiveIn acc)).filter
        (fun r => feedInCategory feeds cat acc r.feed)).map MessageRow.feed ↔
        f ∈ (db.filter (isActiveIn acc)).map MessageRow.feed := by
      simp only [List.mem_map, List.mem_filter]
      constructor
      · rintro ⟨r, ⟨hr, _⟩, hf⟩
        exact ⟨r, hr, hf⟩
      · rintro ⟨r, hr, hf⟩
        exact ⟨r, ⟨hr, by rw [hf]; exact hcat⟩, hf⟩
    rw [hrows]
    simp only [hcat, if_true]
    by_cases hm : f ∈ (db.filter (isActiveIn acc)).map MessageRow.feed
    · rw [if_pos hm, if_pos (hmem.2 hm)]
    · rw [if_neg hm, if_neg (fun h => hm (hmem.1 h))]
  · have hnot : f ∉ ((db.filter (isActiveIn acc)).filter
        (fun r => feedInCategory feeds cat acc r.feed)).map MessageRow.feed := by
      simp only [List.mem_map, List.mem_filter, not_exists, not_and]
      rintro r ⟨_, hr⟩ hf
      rw [hf] at hr
      exact hcat hr
    rw [if_neg hnot]
    simp [hcat]

theorem feedInCategory_iff (feeds : List FeedRow) (cat acc f : Int) :
    feedInCategory feeds cat acc f = true ↔
      ∃ fr ∈ feeds, fr.custom_id = f ∧ fr.category = cat ∧ fr.account_id = acc := by
  simp only [feedInCategory, List.contains_iff_exists_mem_beq, List.mem_map, List.mem_filter,
    Bool.and_eq_true, beq_iff_eq]
  constructor
  · rintro ⟨x, ⟨fr, ⟨hfr, h1, h2⟩, hx⟩, hfx⟩
    exact ⟨fr, hfr, by rw [hx, hfx], h1, h2⟩
  · rintro ⟨fr, hfr, h0, h1, h2⟩
    exact ⟨fr.custom_id, ⟨fr, ⟨hfr, h1, h2⟩, rfl⟩, h0.symm⟩

/-- C23: `getMessageCountsForCategory`, its query executing, is the restriction
of the map of `getMessageCountsForAccount` to the feeds whose row of `Feeds`
has category = custom_id and the account_id (with and without total counts);
with total counts its keys are exactly the feeds of the category that have an
active message in the account, and on a table whose is_read values are 0 or 1
the value of such a feed is the pair of the number of its unread active
messages and the number of its active messages. -/
theorem getMessageCountsForCategory_restricts (db : List MessageRow) (feeds : List FeedRow)
    (cat acc f : Int) (hread : ∀ r ∈ db, r.is_read = 0 ∨ r.is_read = 1) :
    (∀ incl : Bool,
        (getMessageCountsForCategory true db feeds cat acc incl).1.find f =
          if (∃ fr ∈ feeds, fr.custom_id = f ∧ fr.category = cat ∧ fr.account_id = acc) then
            (getMessageCountsForAccount true db acc incl).1.find f
          else none)
    ∧ ((getMessageCountsForCategory true db feeds cat acc true).1.find f ≠ none ↔
        (∃ fr ∈ feeds, fr.custom_id = f ∧ fr.category = cat ∧ fr.account_id = acc)
        ∧ ∃ r ∈ db, r.feed = f ∧ r.is_deleted = 0 ∧ r.is_pdeleted = 0 ∧ r.account_id = acc)
    ∧ ((∃ fr ∈ feeds, fr.custom_id = f ∧ fr.category = cat ∧ fr.account_id = acc) →
        (∃ r ∈ db, r.feed = f ∧ r.is_deleted = 0 ∧ r.is_pdeleted = 0 ∧ r.account_id = acc) →
        (getMessageCountsForCategory true db feeds cat acc true).1.find f =
          some (((db.countP (fun r => r.feed == f && r.is_deleted == 0 && r.is_pdeleted == 0
                  && r.account_id == acc && r.is_read == 0) : Nat) : Int),
                ((db.countP (fun r => r.feed == f && r.is_deleted == 0 && r.is_pdeleted == 0
                  && r.account_id == acc) : Nat) : Int))) := by
  classical
  have hiff := feedInCategory_iff feeds cat acc f
  refine ⟨?_, ?_, ?_⟩
  · intro incl
    rw [category_find]
    by_cases hcat : feedInCategory feeds cat acc f = true
    · rw [if_pos hcat, if_pos (hiff.1 hcat)]
    · rw [if_neg hcat, if_neg (fun h => hcat (hiff.2 h))]
  · rw [category_find]
    by_cases hcat : feedInCategory feeds cat acc f = true
    · rw [if_pos hcat]
      simp only [getMessageCountsForAccount, if_true]
      rw [groupByFeed_find, ← mem_active_feeds]
      by_cases hm : f ∈ (db.filter (isActiveIn acc)).map MessageRow.feed
      · simp [hm, hiff.1 hcat]
      · simp [hm]
    · rw [if_neg hcat]
      simp only [ne_eq, not_true_eq_false, false_iff, not_and]
      intro h
      exact absurd (hiff.2 h) hcat
  · intro hfr hr
    rw [category_find, if_pos (hiff.2 hfr)]
    exact account_counts_value db acc f hread ((mem_active_feeds db acc f).2 hr)

/-- Witness of C23: with `sampleFeeds`, category 10 of account 1 holds feed 7 only. -/
theorem getMessageCountsForCategory_restricts_witness :
    ((getMessageCountsForCategory true sampleTable sampleFeeds 10 1 true).1.find 7 ≠ none ↔
        (∃ fr ∈ sampleFeeds, fr.custom_id = 7 ∧ fr.category = 10 ∧ fr.account_id = 1)
        ∧ ∃ r ∈ sampleTable, r.feed = 7 ∧ r.is_deleted = 0 ∧ r.is_pdeleted = 0 ∧ r.account_id = 1)
    ∧ (getMessageCountsForCategory true sampleTable sampleFeeds 10 1 true).1.find 7 = some (1, 2)
    ∧ (getMessageCountsForCategory true sampleTable sampleFeeds 10 1 true).1.find 8 = none
    ∧ (getMessageCountsForAccount true sampleTable 1 true).1.find 8 = some (0, 1)
    ∧ (getMessageCountsForCategory true sampleTable sampleFeeds 11 1 true).1.find 8 = some (0, 1)
    ∧ (getMessageCountsForCategory true sampleTable sampleFeeds 10 1 false).1.find 7
        = some (1, 0) :=
  ⟨(getMessageCountsForCategory_restricts sampleTable sampleFeeds 10 1 7 (by decide)).2.1,
   by decide, by decide, by decide, by decide, by decide⟩

/-! ## The bin and the counters -/

theorem filter_skip (p : MessageRow → Bool) (pre post : List MessageRow) (r : MessageRow)
    (hp : p r = false) : (pre ++ r :: post).filter p = (pre ++ post).filter p := by
  simp [List.filter_append, List.filter_cons, hp]

theorem countP_skip (p : MessageRow → Bool) (pre post : List MessageRow) (r : MessageRow)
    (hp : p r = false) : (pre ++ r :: post).countP p = (pre ++ post).countP p := by
  simp [List.countP_append, List.countP_cons, hp]

theorem countP_hit (p : MessageRow → Bool) (pre post : List MessageRow) (r : MessageRow)
    (hp : p r = true) : (pre ++ r :: post).countP p = (pre ++ post).countP p + 1 := by
  simp [List.countP_append, List.countP_cons, hp]
  omega

/-- A row that is deleted or purged is counted by none of the counters of
active messages: with and without it they return the same. -/
theorem inactive_not_counted (pre post : List MessageRow) (r : MessageRow)
    (feeds : List FeedRow) (feed cat acc f : Int) (incl : Bool)
    (h : r.is_deleted ≠ 0 ∨ r.is_pdeleted ≠ 0) :
    getMessageCountsForFeed true (pre ++ r :: post) feed acc incl =
        getMessageCountsForFeed true (pre ++ post) feed acc incl
    ∧ (getMessageCountsForAccount true (pre ++ r :: post) acc incl).1.find f =
        (getMessageCountsForAccount true (pre ++ post) acc incl).1.find f
    ∧ (getMessageCountsForCategory true (pre ++ r :: post) feeds cat acc incl).1.find f =
        (getMessageCountsForCategory true (pre ++ post) feeds cat acc incl).1.find f := by
  have hflags : (r.is_deleted == 0 && r.is_pdeleted == 0) = false := by
    rcases h with h | h
    · simp [h]
    · simp [h]
  have hact : isActiveIn acc r = false := by
    simp only [isActiveIn, hflags, Bool.false_and]
  refine ⟨?_, ?_, ?_⟩
  · cases incl
    · simp only [getMessageCountsForFeed, if_true, Bool.false_eq_true, if_false]
      rw [countP_skip _ pre post r]
      cases hf : r.feed == feed <;> cases hd : r.is_deleted == 0 <;>
        cases hpd : r.is_pdeleted == 0 <;> simp_all
    · simp only [getMessageCountsForFeed, if_true]
      rw [countP_skip _ pre post r]
      cases hf : r.feed == feed <;> cases hd : r.is_deleted == 0 <;>
        cases hpd : r.is_pdeleted == 0 <;> simp_all
  · simp only [getMessageCountsForAccount, if_true]
    rw [filter_skip _ pre post r hact]
  · simp only [getMessageCountsForCategory, if_true]
    rw [filter_skip _ pre post r (by simp [hact])]

/-- A row that is not in the bin is not counted by the counter of the bin. -/
theorem outside_bin_not_counted (pre post : List MessageRow) (r : MessageRow) (acc : Int)
    (incl : Bool) (h : r.is_deleted ≠ 1 ∨ r.is_pdeleted ≠ 0) :
    getMessageCountsForBin true (pre ++ r :: post) acc incl =
      getMessageCountsForBin true (pre ++ post) acc incl := by
  have hflags : (r.is_deleted == 1 && r.is_pdeleted == 0) = false := by
    rcases h with h | h
    · simp [h]
    · simp [h]
  cases incl
  · simp only [getMessageCountsForBin, if_true, Bool.false_eq_true, if_false]
    rw [countP_skip _ pre post r]
    cases hr : r.is_read == 0 <;> cases hd : r.is_deleted == 1 <;>
      cases hpd : r.is_pdeleted == 0 <;> simp_all
  · simp only [getMessageCountsForBin, if_true]
    rw [countP_skip _ pre post r]
    simp [hflags]

theorem permanentlyDeleteMessages_append (ids : List Nat) (pre post : List MessageRow)
    (r : MessageRow) (h : r.id ∈ ids) :
    (permanentlyDeleteMessages true (pre ++ r :: post) ids).1 =
        (permanentlyDeleteMessages true pre ids).1 ++
          { r with is_pdeleted := 1 } :: (permanentlyDeleteMessages true post ids).1
    ∧ (permanentlyDeleteMessages true (pre ++ post) ids).1 =
        (permanentlyDeleteMessages true pre ids).1 ++ (permanentlyDeleteMessages true post ids).1 := by
  simp [permanentlyDeleteMessages, execUpdate, h]

/-- C24: a message with is_deleted = 1 and is_pdeleted = 0 adds one to the count
of `getMessageCountsForBin` for its account and nothing to
`getMessageCountsForFeed`, `getMessageCountsForAccount` and
`getMessageCountsForCategory` (each counter is compared on the table with and
without the message); after `permanentlyDeleteMessages` on a list that holds
its id the message has is_pdeleted = 1 and adds nothing to any of the four
counters; and a message with is_deleted = 0 adds nothing to the counter of
the bin. -/
theorem bin_lifecycle_counters (pre post : List MessageRow) (r : MessageRow)
    (feeds : List FeedRow) (feed cat acc f : Int) (incl : Bool) :
    (r.is_deleted = 1 → r.is_pdeleted = 0 →
        (getMessageCountsForBin true (pre ++ r :: post) r.account_id true).1 =
          (getMessageCountsForBin true (pre ++ post) r.account_id true).1 + 1
        ∧ getMessageCountsForFeed true (pre ++ r :: post) feed acc incl =
            getMessageCountsForFeed true (pre ++ post) feed acc incl
        ∧ (getMessageCountsForAccount true (pre ++ r :: post) acc incl).1.find f =
            (getMessageCountsForAccount true (pre ++ post) acc incl).1.find f
        ∧ (getMessageCountsForCategory true (pre ++ r :: post) feeds cat acc incl).1.find f =
            (getMessageCountsForCategory true (pre ++ post) feeds cat acc incl).1.find f)
    ∧ (∀ ids : List Nat, r.id ∈ ids →
        (permanentlyDeleteMessages true (pre ++ r :: post) ids).1[pre.length]? =
            some { r with is_pdeleted := 1 }
        ∧ getMessageCountsForBin true
              (permanentlyDeleteMessages true (pre ++ r :: post) ids).1 acc incl =
            getMessageCountsForBin true
              (permanentlyDeleteMessages true (pre ++ post) ids).1 acc incl
        ∧ getMessageCountsForFeed true
              (permanentlyDeleteMessages true (pre ++ r :: post) ids).1 feed acc incl =
            getMessageCountsForFeed true
              (permanentlyDeleteMessages true (pre ++ post) ids).1 feed acc incl
        ∧ (getMessageCountsForAccount true
              (permanentlyDeleteMessages true (pre ++ r :: post) ids).1 acc incl).1.find f =
            (getMessageCountsForAccount true
              (permanentlyDeleteMessages true (pre ++ post) ids).1 acc incl).1.find f
        ∧ (getMessageCountsForCategory true
              (permanentlyDeleteMessages true (pre ++ r :: post) ids).1 feeds cat acc
                incl).1.find f =
            (getMessageCountsForCategory true
              (permanentlyDeleteMessages true (pre ++ post) ids).1 feeds cat acc incl).1.find f)
    ∧ (r.is_deleted = 0 →
        getMessageCountsForBin true (pre ++ r :: post) acc incl =
          getMessageCountsForBin true (pre ++ post) acc incl) := by
  refine ⟨?_, ?_, ?_⟩
  · intro hd hp
    have hin := inactive_not_counted pre post r feeds feed cat acc f incl
      (Or.inl (by rw [hd]; decide))
    refine ⟨?_, hin.1, hin.2.1, hin.2.2⟩
    simp only [getMessageCountsForBin, if_true]
    rw [countP_hit _ pre post r (by simp [hd, hp])]
    push_cast
    rfl
  · intro ids hid
    obtain ⟨h1, h2⟩ := permanentlyDeleteMessages_append ids pre post r hid
    have hlen : (permanentlyDeleteMessages true pre ids).1.length = pre.length := by
      simp [permanentlyDeleteMessages, execUpdate]
    have hin := inactive_not_counted (permanentlyDeleteMessages true pre ids).1
      (permanentlyDeleteMessages true post ids).1 { r with is_pdeleted := 1 } feeds feed cat acc
      f incl (Or.inr (by simp))
    have hbin := outside_bin_not_counted (permanentlyDeleteMessages true pre ids).1
      (permanentlyDeleteMessages true post ids).1 { r with is_pdeleted := 1 } acc incl
      (Or.inr (by simp))
    rw [h1, h2]
    refine ⟨?_, hbin, hin.1, hin.2.1, hin.2.2⟩
    rw [← hlen, List.getElem?_append_right (le_refl _), Nat.sub_self]
    exact List.getElem?_cons_zero
  · intro hd
    exact outside_bin_not_counted pre post r acc incl (Or.inl (by rw [hd]; decide))

/-- Witness of C24: in `sampleTable` the message with key 4 is in the bin of account 1.
The counter of the bin counts it, the counter of feed 7 does not; after
`permanentlyDeleteMessages` on key 4 the counter of the bin is 0. -/
theorem bin_lifecycle_counters_witness :
    ((getMessageCountsForBin true
          ([storedRow42, storedRowB, storedRowNull] ++
            { storedRowA with id := 4, is_read := 0, is_deleted := 1 } ::
            [{ storedRowA with id := 5, is_deleted := 1, is_pdeleted := 1 },
             { storedRow42 with id := 6, account_id := 2 }]) 1 true).1 =
        (getMessageCountsForBin true
          ([storedRow42, storedRowB, storedRowNull] ++
            [{ storedRowA with id := 5, is_deleted := 1, is_pdeleted := 1 },
             { storedRow42 with id := 6, account_id := 2 }]) 1 true).1 + 1)
    ∧ getMessageCountsForBin true sampleTable 1 true = (1, true)
    ∧ getMessageCountsForFeed true sampleTable 7 1 true = (2, true)
    ∧ getMessageCountsForFeed true sampleTable 7 1 false = (1, true)
    ∧ getMessageCountsForBin true (permanentlyDeleteMessages true sampleTable [4]).1 1 true
        = (0, true)
    ∧ getMessageCountsForFeed true (permanentlyDeleteMessages true sampleTable [4]).1 7 1 true
        = (2, true) :=
  ⟨((bin_lifecycle_counters [storedRow42, storedRowB, storedRowNull]
      [{ storedRowA with id := 5, is_deleted := 1, is_pdeleted := 1 },
       { storedRow42 with id := 6, account_id := 2 }]
      { storedRowA with id := 4, is_read := 0, is_deleted := 1 } sampleFeeds 7 10 1 7 true).1
      rfl rfl).1,
   by decide, by decide, by decide, by decide, by decide⟩

/-! ## Cleanup operations -/

/-- C27: `purgeReadMessages`, `purgeOldMessages` (for every current time and
every older_than_days) and `purgeRecycleBin` remove no message with
is_important = 1: such a message is still in the table and the starred
messages are the same, in the same order; every message `purgeReadMessages`
removes has is_read = 1, is_deleted = 0 and is_important = 0; and
`purgeRecycleBin`, when its statement executes, removes exactly the messages
with is_important = 0 and is_deleted = 1. -/
theorem purge_keeps_starred (e : Bool) (now days : Int) (db : List MessageRow) :
    (∀ r ∈ db, r.is_important = 1 →
        r ∈ (purgeReadMessages e db).1 ∧ r ∈ (purgeOldMessages e now db days).1
        ∧ r ∈ (purgeRecycleBin e db).1)
    ∧ ((purgeReadMessages e db).1.filter (fun r => r.is_important == 1) =
          db.filter (fun r => r.is_important == 1)
        ∧ (purgeOldMessages e now db days).1.filter (fun r => r.is_important == 1) =
          db.filter (fun r => r.is_important == 1)
        ∧ (purgeRecycleBin e db).1.filter (fun r => r.is_important == 1) =
          db.filter (fun r => r.is_important == 1))
    ∧ (∀ r ∈ db, r ∉ (purgeReadMessages e db).1 →
        r.is_read = 1 ∧ r.is_deleted = 0 ∧ r.is_important = 0)
    ∧ (∀ r ∈ db, r ∉ (purgeRecycleBin true db).1 ↔ (r.is_important = 0 ∧ r.is_deleted = 1))
    ∧ (∀ r ∈ (purgeRecycleBin true db).1, r ∈ db ∧ ¬ (r.is_important = 0 ∧ r.is_deleted = 1)) := by
  refine ⟨?_, ⟨?_, ?_, ?_⟩, ?_, ?_, ?_⟩
  · intro r hr himp
    cases e <;>
      simp [purgeReadMessages, purgeOldMessages, purgeRecycleBin, execDelete, hr, himp]
  · cases e
    · simp [purgeReadMessages, execDelete]
    · simp only [purgeReadMessages, execDelete, if_true, List.filter_filter]
      apply List.filter_congr
      intro r _
      by_cases h : r.is_important = 1 <;> simp [h]
  · cases e
    · simp [purgeOldMessages, execDelete]
    · simp only [purgeOldMessages, execDelete, if_true, List.filter_filter]
      apply List.filter_congr
      intro r _
      by_cases h : r.is_important = 1 <;> simp [h]
  · cases e
    · simp [purgeRecycleBin, execDelete]
    · simp only [purgeRecycleBin, execDelete, if_true, List.filter_filter]
      apply List.filter_congr
      intro r _
      by_cases h : r.is_important = 1 <;> simp [h]
  · intro r hr hgone
    cases e
    · simp [purgeReadMessages, execDelete, hr] at hgone
    · simp only [purgeReadMessages, execDelete, if_true, List.mem_filter, hr, true_and,
        Bool.not_eq_true', Bool.not_eq_false, Bool.and_eq_true, beq_iff_eq] at hgone
      exact ⟨hgone.2, hgone.1.2, hgone.1.1⟩
  · intro r hr
    simp [purgeRecycleBin, execDelete, hr]
  · intro r hr
    simp only [purgeRecycleBin, execDelete, if_true, List.mem_filter, Bool.not_eq_true',
      Bool.and_eq_false_iff, beq_eq_false_iff_ne, ne_eq] at hr
    refine ⟨hr.1, ?_⟩
    rintro ⟨h1, h2⟩
    rcases hr.2 with h | h
    · exact h h1
    · exact h h2

/-! ## The lifecycle of a message -/

theorem rowsRelated_refl (P : MessageRow → MessageRow → Prop) (hrefl : ∀ r, P r r)
    (db : List MessageRow) : RowsRelated P db db :=
  fun _ r hk => ⟨r, hk, hrefl r⟩

theorem rowsRelated_trans (P : MessageRow → MessageRow → Prop)
    (htrans : ∀ a b c, P a b → P b c → P a c) {a b c : List MessageRow}
    (hab : RowsRelated P a b) (hbc : RowsRelated P b c) : RowsRelated P a c := by
  intro k r hk
  obtain ⟨r2, hk2, h12⟩ := hab k r hk
  obtain ⟨r3, hk3, h23⟩ := hbc k r2 hk2
  exact ⟨r3, hk3, htrans _ _ _ h12 h23⟩

theorem rowsRelated_map (P : MessageRow → MessageRow → Prop) (g : MessageRow → MessageRow)
    (db : List MessageRow) (hg : ∀ r ∈ db, P r (g r)) : RowsRelated P db (db.map g) := by
  intro k r hk
  refine ⟨g r, by simp [hk], hg r (List.getElem?_mem hk)⟩

theorem rowsRelated_append (P : MessageRow → MessageRow → Prop) (hrefl : ∀ r, P r r)
    (db added : List MessageRow) : RowsRelated P db (db ++ added) := by
  intro k r hk
  have hlt : k < db.length := by
    rcases Nat.lt_or_ge k db.length with h | h
    · exact h
    · rw [List.getElem?_eq_none h] at hk
      cases hk
  exact ⟨r, by rw [List.getElem?_append_left hlt]; exact hk, hrefl r⟩

theorem execUpdate_related (P : MessageRow → MessageRow → Prop) (hrefl : ∀ r, P r r)
    (e : Bool) (db : List MessageRow) (wh : MessageRow → Bool)
    (set : MessageRow → MessageRow) (hset : ∀ r, wh r = true → P r (set r)) :
    RowsRelated P db (execUpdate e db wh set).1 := by
  cases e
  · exact rowsRelated_refl P hrefl db
  · simp only [execUpdate, if_true]
    apply rowsRelated_map
    intro r _
    by_cases h : wh r = true
    · simp only [h, if_true]
      exact hset r h
    · simp only [h]
      exact hrefl r

/-- The table after one iteration of the loop is the table before it, or that
table with the inserted row at its end, or that table with the rows of the
matched key updated. -/
theorem processMessage_db_cases (lib : Library) (o : DbOracle) (feed acc : Int)
    (url : String) (s : LoopState) (m : Message) :
    (processMessage lib o feed acc url s m).db = s.db
    ∨ (processMessage lib o feed acc url s m).db =
        s.db ++ [insertedRow lib s.db feed acc (normalizeMessage lib url m)]
    ∨ ∃ row, findExisting o feed acc s.index s.db (normalizeMessage lib url m) = some row
        ∧ (processMessage lib o feed acc url s m).db =
            s.db.map (fun r =>
              if r.id = row.id then updatedRow lib (normalizeMessage lib url m) r else r) := by
  cases hfind : findExisting o feed acc s.index s.db (normalizeMessage lib url m) with
  | none =>
    rw [processMessage_insert lib o feed acc url s m hfind]
    cases o.insert_ok s.index
    · exact Or.inl (by simp)
    · exact Or.inr (Or.inl (by simp [query_insert]))
  | some row =>
    cases hcond : updateCondition (normalizeMessage lib url m) row with
    | false =>
      rw [processMessage_skip lib o feed acc url s m row hfind hcond]
      exact Or.inl rfl
    | true =>
      rw [processMessage_update lib o feed acc url s m row hfind hcond]
      cases o.update_ok s.index
      · exact Or.inl (by simp)
      · exact Or.inr (Or.inr ⟨row, rfl, by simp [query_update]⟩)

/-- The table `updateMessages` leaves is the table it was given, or the table
at the end of the loop, or the latter after the fixup statement. -/
theorem updateMessages_db_cases (lib : Library) (o : DbOracle) (db : List MessageRow)
    (messages : List Message) (feed acc : Int) (url : String) (any ok : Bool) :
    (updateMessages lib o db messages feed acc url any ok).db = db
    ∨ (updateMessages lib o db messages feed acc url any ok).db =
        (messages.foldl (processMessage lib o feed acc url) (initialState db any)).db
    ∨ (updateMessages lib o db messages feed acc url any ok).db =
        fixupCustomIds
          (messages.foldl (processMessage lib o feed acc url) (initialState db any)).db := by
  unfold updateMessages
  cases messages.isEmpty <;> cases o.transaction_ok <;> cases o.commit_ok <;>
    cases o.fixup_ok <;> simp

/-- A relation between a row and its successor that holds for unchanged rows,
is transitive, and holds for the `SET` clause of the update statement and for
the fixup, holds between the table before and after `updateMessages`. -/
theorem updateMessages_related (P : MessageRow → MessageRow → Prop) (hrefl : ∀ r, P r r)
    (htrans : ∀ a b c, P a b → P b c → P a c) (lib : Library)
    (hupd : ∀ m r, P r (updatedRow lib m r))
    (hfix : ∀ r c, P r { r with custom_id := c })
    (o : DbOracle) (db : List MessageRow) (messages : List Message) (feed acc : Int)
    (url : String) (any ok : Bool) :
    RowsRelated P db (updateMessages lib o db messages feed acc url any ok).db := by
  have hstep : ∀ (s : LoopState) (m : Message),
      RowsRelated P s.db (processMessage lib o feed acc url s m).db := by
    intro s m
    rcases processMessage_db_cases lib o feed acc url s m with h | h | ⟨row, _, h⟩
    · rw [h]; exact rowsRelated_refl P hrefl _
    · rw [h]; exact rowsRelated_append P hrefl _ _
    · rw [h]
      apply rowsRelated_map
      intro r _
      split
      · exact hupd _ r
      · exact hrefl r
  have hloop : ∀ (msgs : List Message) (s : LoopState),
      RowsRelated P s.db (msgs.foldl (processMessage lib o feed acc url) s).db := by
    intro msgs
    induction msgs with
    | nil => intro s; exact rowsRelated_refl P hrefl _
    | cons m t ih =>
      intro s
      rw [List.foldl_cons]
      exact rowsRelated_trans P htrans (hstep s m) (ih _)
  rcases updateMessages_db_cases lib o db messages feed acc url any ok with h | h | h
  · rw [h]; exact rowsRelated_refl P hrefl _
  · rw [h]; exact hloop messages (initialState db any)
  · rw [h]
    refine rowsRelated_trans P htrans (hloop messages (initialState db any)) ?_
    unfold fixupCustomIds
    apply rowsRelated_map
    intro r _
    split
    · exact hfix r _
    · exact hrefl r

theorem keepsLifecycle_refl (r : MessageRow) : KeepsLifecycle r r := ⟨rfl, id, id⟩

theorem keepsLifecycle_trans (a b c : MessageRow) (h1 : KeepsLifecycle a b)
    (h2 : KeepsLifecycle b c) : KeepsLifecycle a c :=
  ⟨h2.1.trans h1.1, fun h => h2.2.1 (h1.2.1 h), fun h => h2.2.2 (h1.2.2 h)⟩

/-- C25: position by position, every row of the table has a successor with the
same key after each operation (no row disappears), and: after the mark
operations, `switchMessagesImportance`, `permanentlyDeleteMessages`,
`purgeMessagesFromBin`, `cleanFeeds`, `deleteOrRestoreMessagesToFromBin` with
deleted = true and `updateMessages`, a row with is_pdeleted = 1 still has
is_pdeleted = 1 and a row with is_deleted = 1 still has is_deleted = 1; after
`deleteOrRestoreMessagesToFromBin` with any argument and after `restoreBin` a
row with is_pdeleted = 1 still has is_pdeleted = 1; and `restoreBin` changes
only rows with is_deleted = 1, is_pdeleted = 0 and the given account_id, in
which it sets is_deleted to 0 and nothing else. -/
theorem lifecycle_monotonic (e e2 : Bool) (db : List MessageRow) (ids : List Nat)
    (feedIds : List Int) (key : Nat) (importance account_id : Int) (read : ReadStatus)
    (flag : Bool) (lib : Library) (o : DbOracle) (messages : List Message)
    (feed_custom_id : Int) (url : String) (any ok : Bool) :
    RowsRelated KeepsLifecycle db (markMessagesReadUnread e db ids read).1
    ∧ RowsRelated KeepsLifecycle db (markMessageImportant e2 e db key importance).1
    ∧ RowsRelated KeepsLifecycle db (markFeedsReadUnread e db feedIds account_id read).1
    ∧ RowsRelated KeepsLifecycle db (markBinReadUnread e db account_id read).1
    ∧ RowsRelated KeepsLifecycle db (markAccountReadUnread e db account_id read).1
    ∧ RowsRelated KeepsLifecycle db (switchMessagesImportance e db ids).1
    ∧ RowsRelated KeepsLifecycle db (permanentlyDeleteMessages e db ids).1
    ∧ RowsRelated KeepsLifecycle db (purgeMessagesFromBin e db flag account_id).1
    ∧ RowsRelated KeepsLifecycle db (cleanFeeds e db feedIds flag account_id).1
    ∧ RowsRelated KeepsLifecycle db (deleteOrRestoreMessagesToFromBin e db ids true).1
    ∧ RowsRelated KeepsLifecycle db
        (updateMessages lib o db messages feed_custom_id account_id url any ok).db
    ∧ RowsRelated KeepsPurged db (deleteOrRestoreMessagesToFromBin e db ids flag).1
    ∧ RowsRelated KeepsPurged db (restoreBin e db account_id).1
    ∧ RowsRelated (fun r r2 => r2 = r ∨
          (r.is_deleted = 1 ∧ r.is_pdeleted = 0 ∧ r.account_id = account_id
            ∧ r2 = { r with is_deleted := 0 }))
        db (restoreBin e db account_id).1 := by
  have hr := keepsLifecycle_refl
  have hp : ∀ r, KeepsPurged r r := fun r => ⟨rfl, id⟩
  refine ⟨?_, ?_, ?_, ?_, ?_, ?_, ?_, ?_, ?_, ?_, ?_, ?_, ?_, ?_⟩
  · exact execUpdate_related _ hr e db _ _ (fun r _ => ⟨rfl, id, id⟩)
  · unfold markMessageImportant
    cases e2
    · exact rowsRelated_refl _ hr db
    · exact execUpdate_related _ hr e db _ _ (fun r _ => ⟨rfl, id, id⟩)
  · exact execUpdate_related _ hr e db _ _ (fun r _ => ⟨rfl, id, id⟩)
  · exact execUpdate_related _ hr e db _ _ (fun r _ => ⟨rfl, id, id⟩)
  · exact execUpdate_related _ hr e db _ _ (fun r _ => ⟨rfl, id, id⟩)
  · exact execUpdate_related _ hr e db _ _ (fun r _ => ⟨rfl, id, id⟩)
  · exact execUpdate_related _ hr e db _ _ (fun r _ => ⟨rfl, fun _ => rfl, id⟩)
  · unfold purgeMessagesFromBin
    cases flag
    · exact execUpdate_related _ hr e db _ _ (fun r _ => ⟨rfl, fun _ => rfl, id⟩)
    · exact execUpdate_related _ hr e db _ _ (fun r _ => ⟨rfl, fun _ => rfl, id⟩)
  · unfold cleanFeeds
    cases flag
    · exact execUpdate_related _ hr e db _ _ (fun r _ => ⟨rfl, id, fun _ => rfl⟩)
    · exact execUpdate_related _ hr e db _ _ (fun r _ => ⟨rfl, id, fun _ => rfl⟩)
  · exact execUpdate_related _ hr e db _ _ (fun r _ => ⟨rfl, id, fun _ => rfl⟩)
  · exact updateMessages_related KeepsLifecycle hr keepsLifecycle_trans lib
      (fun m r => ⟨rfl, id, id⟩) (fun r c => ⟨rfl, id, id⟩) o db messages feed_custom_id
      account_id url any ok
  · exact execUpdate_related _ hp e db _ _ (fun r _ => ⟨rfl, id⟩)
  · exact execUpdate_related _ hp e db _ _ (fun r _ => ⟨rfl, id⟩)
  · refine execUpdate_related _ (fun r => Or.inl rfl) e db _ _ ?_
    intro r hwh
    simp only [Bool.and_eq_true, beq_iff_eq] at hwh
    exact Or.inr ⟨hwh.1.1, hwh.1.2, hwh.2, rfl⟩

/-! ## Uniqueness of custom IDs -/

/-- Counterexample to C26, every call succeeding, all rows in account 1.  (1) The
table holds one row, with key 3 and NULL custom_id; the candidate with
customId 3 is inserted as row 4 and the fixup gives row 3 the custom_id 3:
two rows of the account share a customId.  (2) The table holds one row, with
key 1 and custom_id 2; a candidate without customId is inserted as row 2 and
the fixup gives it the custom_id 2. -/
theorem updateMessages_fixup_duplicates_custom_id :
    (([storedRowNull].filter (fun r => r.account_id == 1)).map MessageRow.custom_id).Nodup
    ∧ (appliedOnce [storedRowNull] [candidate3]).map (fun r => (r.id, r.account_id, r.custom_id))
        = [(3, 1, some "3"), (4, 1, some "3")]
    ∧ ¬ (((appliedOnce [storedRowNull] [candidate3]).filter (fun r => r.account_id == 1)).map
          MessageRow.custom_id).Nodup
    ∧ (([storedRowCustom2].filter (fun r => r.account_id == 1)).map MessageRow.custom_id).Nodup
    ∧ (appliedOnce [storedRowCustom2] [candidateA 100 true]).map
        (fun r => (r.id, r.account_id, r.custom_id)) = [(1, 1, some "2"), (2, 1, some "2")]
    ∧ ¬ (((appliedOnce [storedRowCustom2] [candidateA 100 true]).filter
          (fun r => r.account_id == 1)).map MessageRow.custom_id).Nodup := by
  decide

/-- One iteration, every statement executing, keeps the custom IDs that are
not empty pairwise different within each account. -/
theorem unique_custom_ids_step (lib : Library) (feed acc : Int) (url : String)
    (s : LoopState) (m : Message)
    (h : s.db.Pairwise (fun r1 r2 => r1.account_id = r2.account_id →
      r1.custom_id = r2.custom_id → lacksCustomId r1 = true)) :
    (processMessage lib allSucceed feed acc url s m).db.Pairwise
      (fun r1 r2 => r1.account_id = r2.account_id →
        r1.custom_id = r2.custom_id → lacksCustomId r1 = true) := by
  rw [processMessage_allSucceed_db]
  cases hfind : s.db.find? (identityClause feed acc (normalizeMessage lib url m)) with
  | none =>
    simp only [query_insert]
    rw [List.pairwise_append]
    refine ⟨h, List.pairwise_singleton _ _, ?_⟩
    intro r hr b hb hacc hcid
    simp only [List.mem_singleton] at hb
    subst hb
    simp only [insertedRow] at hacc hcid
    cases hemp : isEmpty (normalizeMessage lib url m).m_customId
    · have hno := (List.find?_eq_none.1 hfind) r hr
      simp [identityClause, hemp, hcid, hacc] at hno
    · simp [lacksCustomId, hcid, hemp]
  | some row =>
    cases hcond : updateCondition (normalizeMessage lib url m) row with
    | false => simpa [hcond] using h
    | true =>
      simp only [hcond, if_true, query_update]
      rw [List.pairwise_map]
      refine h.imp ?_
      intro a b hab
      have hfa : ∀ x : MessageRow,
          (if x.id = row.id then updatedRow lib (normalizeMessage lib url m) x else x).account_id
            = x.account_id
          ∧ (if x.id = row.id then updatedRow lib (normalizeMessage lib url m) x
              else x).custom_id = x.custom_id := by
        intro x
        split <;> exact ⟨rfl, rfl⟩
      intro hacc hcid
      rw [(hfa a).1, (hfa b).1] at hacc
      rw [(hfa a).2, (hfa b).2] at hcid
      have := hab hacc hcid
      simpa [lacksCustomId, (hfa a).2] using this

theorem unique_custom_ids_loop (lib : Library) (feed acc : Int) (url : String)
    (msgs : List Message) :
    ∀ s : LoopState,
      s.db.Pairwise (fun r1 r2 => r1.account_id = r2.account_id →
        r1.custom_id = r2.custom_id → lacksCustomId r1 = true) →
      (msgs.foldl (processMessage lib allSucceed feed acc url) s).db.Pairwise
        (fun r1 r2 => r1.account_id = r2.account_id →
          r1.custom_id = r2.custom_id → lacksCustomId r1 = true) := by
  induction msgs with
  | nil => intro s h; simpa using h
  | cons m t ih =>
    intro s h
    rw [List.foldl_cons]
    exact ih _ (unique_custom_ids_step lib feed acc url s m h)

/-- C26 (amended): let no two stored messages of the same account share a
customId that is not empty.  Then, every statement executing, at the end of
the per-message pass of `updateMessages` no two messages of the same account
share a customId that is not empty; and when moreover no stored row has a
NULL or empty custom_id and every candidate has a customId, no two messages of
the same account share a customId after the batch (fixup and commit
included). -/
theorem updateMessages_unique_custom_ids (lib : Library) (db : List MessageRow)
    (messages : List Message) (feed acc : Int) (url : String) (any ok : Bool)
    (huniq : db.Pairwise (fun r1 r2 => r1.account_id = r2.account_id →
      r1.custom_id = r2.custom_id → lacksCustomId r1 = true)) :
    (messages.foldl (processMessage lib allSucceed feed acc url) (initialState db any)).db.Pairwise
        (fun r1 r2 => r1.account_id = r2.account_id →
          r1.custom_id = r2.custom_id → lacksCustomId r1 = true)
    ∧ ((∀ r ∈ db, lacksCustomId r = false) → (∀ m ∈ messages, m.m_customId ≠ "") →
        (updateMessages lib allSucceed db messages feed acc url any ok).db.Pairwise
          (fun r1 r2 => r1.account_id = r2.account_id → r1.custom_id ≠ r2.custom_id)) := by
  have hloop := unique_custom_ids_loop lib feed acc url messages (initialState db any) huniq
  refine ⟨hloop, ?_⟩
  intro hlack hids
  have hstrong : ∀ l : List MessageRow, (∀ r ∈ l, lacksCustomId r = false) →
      l.Pairwise (fun r1 r2 => r1.account_id = r2.account_id →
        r1.custom_id = r2.custom_id → lacksCustomId r1 = true) →
      l.Pairwise (fun r1 r2 => r1.account_id = r2.account_id →
        r1.custom_id ≠ r2.custom_id) := by
    intro l hl hp
    refine hp.imp_of_mem ?_
    intro a b ha _ hab hacc hcid
    have := hab hacc hcid
    rw [hl a ha] at this
    cases this
  by_cases hne : messages = []
  · subst hne
    exact hstrong db hlack huniq
  · rw [updateMessages_allSucceed lib db messages feed acc url any ok hne]
    have hnl := no_missing_custom_id_loop lib feed acc url messages (initialState db any)
      (fun x hx => isEmpty_eq_false (hids x hx)) hlack
    show (fixupCustomIds _).Pairwise _
    rw [fixupCustomIds_of_complete _ hnl]
    exact hstrong _ hnl hloop

/-- Witness of C26 (amended): on the table with custom_id 42, the batch of the
candidates with customIds 42 and 77 leaves two rows with different
customIds. -/
theorem updateMessages_unique_custom_ids_witness :
    (updateMessages sampleLibrary allSucceed [storedRow42] [candidate42, candidateNew] 7 1
        "https://s/feed" false false).db.Pairwise
      (fun r1 r2 => r1.account_id = r2.account_id → r1.custom_id ≠ r2.custom_id)
    ∧ (updateMessages sampleLibrary allSucceed [storedRow42] [candidate42, candidateNew] 7 1
        "https://s/feed" false false).db.map (fun r => (r.id, r.account_id, r.custom_id))
      = [(1, 1, some "42"), (2, 1, some "77")] :=
  ⟨(updateMessages_unique_custom_ids sampleLibrary [storedRow42] [candidate42, candidateNew]
      7 1 "https://s/feed" false false (by simp)).2 (by decide) (by decide), by decide⟩

/-! ## Messages of other accounts -/

/-- The row read by the identity lookup is of the account of the batch. -/
theorem findExisting_account (o : DbOracle) (feed acc : Int) (i : Nat) (db : List MessageRow)
    (m : Message) (row : MessageRow) (h : findExisting o feed acc i db m = some row) :
    row.account_id = acc := by
  unfold findExisting query_select_with_url query_select_with_id at h
  split at h <;> split at h
  · have := List.find?_some h
    simp only [Bool.and_eq_true, beq_iff_eq] at this
    exact this.2
  · cases h
  · have := List.find?_some h
    simp only [Bool.and_eq_true, beq_iff_eq] at this
    exact this.2
  · cases h

/-- One iteration, whatever statements fail: primary keys stay pairwise
different, and every row keeps its position, key and account, a row of
another account than the batch's being unchanged. -/
theorem other_accounts_step (lib : Library) (o : DbOracle) (feed acc : Int) (url : String)
    (s : LoopState) (m : Message) (hnd : (s.db.map MessageRow.id).Nodup) :
    ((processMessage lib o feed acc url s m).db.map MessageRow.id).Nodup
    ∧ RowsRelated (fun r r2 => r2.id = r.id ∧ r2.account_id = r.account_id
          ∧ (r.account_id ≠ acc → r2 = r))
        s.db (processMessage lib o feed acc url s m).db := by
  rcases processMessage_db_cases lib o feed acc url s m with h | h | ⟨row, hrow, h⟩
  · rw [h]
    exact ⟨hnd, rowsRelated_refl _ (fun r => ⟨rfl, rfl, fun _ => rfl⟩) _⟩
  · rw [h]
    refine ⟨?_, rowsRelated_append _ (fun r => ⟨rfl, rfl, fun _ => rfl⟩) _ _⟩
    simp only [List.map_append, List.map_cons, List.map_nil]
    rw [List.nodup_append]
    refine ⟨hnd, List.nodup_singleton _, ?_⟩
    intro x hx hb
    simp only [List.mem_singleton] at hb
    simp only [List.mem_map] at hx
    obtain ⟨r, hr, hrx⟩ := hx
    have := lt_nextId s.db r hr
    rw [hrx, hb] at this
    exact absurd this (by simp [insertedRow])
  · rw [h]
    refine ⟨?_, ?_⟩
    · simp only [List.map_map]
      have : (MessageRow.id ∘ fun r =>
          if r.id = row.id then updatedRow lib (normalizeMessage lib url m) r else r)
          = MessageRow.id := by
        funext r
        simp only [Function.comp]
        split <;> rfl
      rw [this]
      exact hnd
    · apply rowsRelated_map
      intro r hr
      by_cases hid : r.id = row.id
      · simp only [hid, if_true]
        refine ⟨hid.symm ▸ rfl, rfl, ?_⟩
        intro hacc
        have hrr : r = row := eq_of_id_eq hnd hr (findExisting_mem hrow) hid
        rw [hrr] at hacc
        exact absurd (findExisting_account o feed acc s.index s.db _ row hrow) hacc
      · rw [if_neg hid]
        exact ⟨rfl, rfl, fun _ => rfl⟩

theorem other_accounts_loop (lib : Library) (o : DbOracle) (feed acc : Int) (url : String)
    (msgs : List Message) :
    ∀ s : LoopState, (s.db.map MessageRow.id).Nodup →
      RowsRelated (fun r r2 => r2.id = r.id ∧ r2.account_id = r.account_id
          ∧ (r.account_id ≠ acc → r2 = r))
        s.db (msgs.foldl (processMessage lib o feed acc url) s).db := by
  induction msgs with
  | nil =>
    intro s _
    exact rowsRelated_refl _ (fun r => ⟨rfl, rfl, fun _ => rfl⟩) _
  | cons m t ih =>
    intro s hnd
    rw [List.foldl_cons]
    obtain ⟨hnd2, hrel⟩ := other_accounts_step lib o feed acc url s m hnd
    refine rowsRelated_trans _ ?_ hrel (ih _ hnd2)
    intro a b c hab hbc
    refine ⟨hbc.1.trans hab.1, hbc.2.1.trans hab.2.1, ?_⟩
    intro hacc
    have hba := hab.2.2 hacc
    rw [hba] at hbc
    exact hbc.2.2 hacc

/-- C28: let the stored primary keys be pairwise different and let a batch be
applied with account_id = a, whatever calls fail.  The identity lookup never
reads a row of another account; at the end of the per-message pass every
stored row of another account is at its position and unchanged (inserted rows
come after the stored ones); after `updateMessages` such a row is unchanged or
differs only in custom_id, which then was NULL or empty and is the decimal
text of the row's own primary key; and a row of another account whose
custom_id is not empty is unchanged. -/
theorem updateMessages_other_accounts (lib : Library) (o : DbOracle) (db : List MessageRow)
    (messages : List Message) (feed a : Int) (url : String) (any ok : Bool)
    (hkeys : (db.map MessageRow.id).Nodup) :
    (∀ (s : LoopState) (m : Message) (row : MessageRow),
        findExisting o feed a s.index s.db (normalizeMessage lib url m) = some row →
        row.account_id = a)
    ∧ RowsRelated (fun r r2 => r.account_id ≠ a → r2 = r) db
        (messages.foldl (processMessage lib o feed a url) (initialState db any)).db
    ∧ RowsRelated (fun r r2 => r.account_id ≠ a →
          (r2 = r ∨ ((r.custom_id = none ∨ r.custom_id = some "")
            ∧ r2 = { r with custom_id := some (toString r.id) })))
        db (updateMessages lib o db messages feed a url any ok).db
    ∧ RowsRelated (fun r r2 => r.account_id ≠ a →
          ¬ (r.custom_id = none ∨ r.custom_id = some "") → r2 = r)
        db (updateMessages lib o db messages feed a url any ok).db := by
  have hloop := other_accounts_loop lib o feed a url messages (initialState db any) hkeys
  have hlack : ∀ r : MessageRow, lacksCustomId r = true ↔
      (r.custom_id = none ∨ r.custom_id = some "") := by
    intro r
    unfold lacksCustomId
    cases hc : r.custom_id with
    | none => simp
    | some c => simp [isEmpty_iff]
  have hfinal : RowsRelated (fun r r2 => r.account_id ≠ a →
      (r2 = r ∨ ((r.custom_id = none ∨ r.custom_id = some "")
        ∧ r2 = { r with custom_id := some (toString r.id) })))
      db (updateMessages lib o db messages feed a url any ok).db := by
    rcases updateMessages_db_cases lib o db messages feed a url any ok with h | h | h
    · rw [h]
      exact rowsRelated_refl _ (fun r _ => Or.inl rfl) _
    · rw [h]
      intro k r hk
      obtain ⟨r2, hk2, h2⟩ := hloop k r hk
      exact ⟨r2, hk2, fun hacc => Or.inl (h2.2.2 hacc)⟩
    · rw [h]
      intro k r hk
      obtain ⟨r2, hk2, h2⟩ := hloop k r hk
      have hr2 : r.account_id ≠ a → r2 = r := h2.2.2
      refine ⟨(if lacksCustomId r2 = true then { r2 with custom_id := some (toString r2.id) }
          else r2), ?_, ?_⟩
      · simp only [fixupCustomIds, List.getElem?_map, hk2, Option.map_some']
      intro hacc
      rw [hr2 hacc]
      by_cases hl : lacksCustomId r = true
      · rw [if_pos hl]
        exact Or.inr ⟨(hlack r).1 hl, rfl⟩
      · rw [if_neg hl]
        exact Or.inl rfl
  refine ⟨fun s m row h => findExisting_account o feed a s.index s.db _ row h, ?_, hfinal, ?_⟩
  · intro k r hk
    obtain ⟨r2, hk2, h2⟩ := hloop k r hk
    exact ⟨r2, hk2, h2.2.2⟩
  · intro k r hk
    obtain ⟨r2, hk2, h2⟩ := hfinal k r hk
    refine ⟨r2, hk2, ?_⟩
    intro hacc hnl
    rcases h2 hacc with h | ⟨hl, _⟩
    · exact h
    · exact absurd hl hnl

/-- Witness of C28: `sampleTable` holds as its last row a message of account 2 with
custom_id 42 and, once that is set to NULL, a message of account 2 without
custom_id.  A batch for account 1 that updates and inserts leaves the first
unchanged and changes only the custom_id of the second, to its key 6. -/
theorem updateMessages_other_accounts_witness :
    RowsRelated (fun r r2 => r.account_id ≠ 1 →
          ¬ (r.custom_id = none ∨ r.custom_id = some "") → r2 = r)
        sampleTable
        (updateMessages sampleLibrary allSucceed sampleTable sampleBatch 7 1 "https://s/feed"
          false false).db
    ∧ (updateMessages sampleLibrary allSucceed sampleTable sampleBatch 7 1 "https://s/feed"
          false false).db[5]? = sampleTable[5]?
    ∧ (updateMessages sampleLibrary allSucceed
          [storedRow42, { storedRow42 with id := 6, account_id := 2, custom_id := none }]
          sampleBatch 7 1 "https://s/feed" false false).db[1]? =
        some { storedRow42 with id := 6, account_id := 2, custom_id := some "6" }
    ∧ (updateMessages sampleLibrary allSucceed sampleTable sampleBatch 7 1 "https://s/feed"
          false false).calls.any DbCall.isUpdate = true :=
  ⟨(updateMessages_other_accounts sampleLibrary allSucceed sampleTable sampleBatch 7 1
      "https://s/feed" false false (by decide)).2.2.2, by decide, by decide, by decide⟩

end RssGuard
